import Mathlib

/-!
Verification of the struct_auto_from procedural macro (src/lib.rs).

The development shallowly embeds the generator pipeline:
syntax model of the annotated struct, the darling-style attribute
extraction, the field classifier of ImplData::from_parsed_input, the
token emission of construct_from_tokenstream (modelled as a structured
Output value), and a runtime semantics for the emitted From impl.
-/

namespace StructAutoFrom

abbrev Ident := String

/-- Verbatim expression tokens of a default_value argument, kept abstract. -/
abbrev Expr := String

/-- A fully qualified Rust path, one segment per entry. -/
abbrev RPath := List String

/-- A Rust type as far as the classifier inspects it: the classifier only
checks whether the top constructor is a fixed-size array
(matches(f.ty, Type::Array(_))), so everything else is opaque. -/
inductive RustTy where
  | array (elem : RustTy) (len : Nat)
  | other (name : String)
deriving DecidableEq, Repr

/-- One argument inside an attribute list: either well-formed
name = expression tokens, or tokens darling cannot parse. -/
inductive AttrArg where
  | namedExpr (name : String) (expr : Expr)
  | malformed (raw : String)
deriving DecidableEq, Repr

/-- The shapes of syn::Meta that remove_attrs distinguishes:
Meta::List(path, args), Meta::Path, Meta::NameValue. -/
inductive Meta where
  | list (path : String) (args : List AttrArg)
  | pathOnly (path : String)
  | nameValue (path : String) (value : String)
deriving DecidableEq, Repr

/-- A struct field: optional identifier (None for tuple-struct fields),
declared type, attribute list. -/
structure Field where
  ident : Option Ident
  ty : RustTy
  attrs : List Meta
deriving DecidableEq, Repr

/-- A parsed ItemStruct: name, generic parameters, ordered field list. -/
structure ItemStruct where
  ident : Ident
  generics : List String
  fields : List Field
deriving DecidableEq, Repr

/-- Parse the arguments of one auto_from_attr attribute list, darling
style: only the argument name default_value is known, a repeated
default_value is a duplicate-field error, unparseable tokens are an
error.  The accumulator carries a default_value found earlier (possibly
in a previous attribute on the same field). -/
def parseArgs : List AttrArg → Option Expr → Except String (Option Expr)
  | [], acc => .ok acc
  | .malformed r :: _, _ => .error (String.append ("unparseable tokens: ") r)
  | .namedExpr n e :: rest, acc =>
    if n = "default_value" then
      match acc with
      | some _ => .error ("duplicate field default_value")
      | none => parseArgs rest (some e)
    else .error (String.append ("unknown field ") n)

/-- Modelled behavior of AutoFromAttr::from_field (darling FromField with
darling(default, attributes(auto_from_attr))): scan the attribute list,
read every auto_from_attr list attribute, return the extracted
default_value expression if any. -/
def autoFromAttrFromField (attrs : List Meta) : Except String (Option Expr) :=
  attrs.foldlM
    (fun acc a =>
      match a with
      | .list p args => if p = "auto_from_attr" then parseArgs args acc else .ok acc
      | _ => .ok acc)
    none

/-- ImplData::remove_attrs: retain keeps exactly the Meta::List attributes
whose path is not auto_from_attr; every non-list attribute is dropped. -/
def removeAttrs (f : Field) : Field :=
  { f with
    attrs := f.attrs.filter fun a =>
      match a with
      | .list p _ => !(p == "auto_from_attr")
      | _ => false }

/-- Insert into an association list with HashMap::insert semantics:
replace the value at an existing key in place, otherwise append. -/
def assocInsert {α : Type} : List (Ident × α) → Ident → α → List (Ident × α)
  | [], k, v => [(k, v)]
  | (k0, v0) :: rest, k, v =>
    if k0 = k then (k, v) :: rest else (k0, v0) :: assocInsert rest k v

/-- Loop body of ImplData::extract_defaults_from_input, one field at a
time: parse the auto_from_attr attributes (unwrap: any darling error
aborts the whole expansion), and when the field has an identifier and a
default_value, record the pair and strip the attributes. -/
def extractDefaultsGo (acc : List (Ident × Expr)) :
    List Field → Except String (List Field × List (Ident × Expr))
  | [] => .ok ([], acc)
  | f :: rest =>
    match autoFromAttrFromField f.attrs with
    | .error msg => .error msg
    | .ok dv =>
      match f.ident, dv with
      | some i, some e =>
        match extractDefaultsGo (assocInsert acc i e) rest with
        | .error msg => .error msg
        | .ok (rest2, ds) => .ok (removeAttrs f :: rest2, ds)
      | _, _ =>
        match extractDefaultsGo acc rest with
        | .error msg => .error msg
        | .ok (rest2, ds) => .ok (f :: rest2, ds)

/-- ImplData::extract_defaults_from_input: mutates the cloned struct
(returned as the new field list) and returns the name-to-expression
default map. -/
def extractDefaultsFromInput (fields : List Field) :
    Except String (List Field × List (Ident × Expr)) :=
  extractDefaultsGo [] fields

/-- Check for matches(ty, Type::Array(_)). -/
def isArrayTy : RustTy → Bool
  | .array _ _ => true
  | .other _ => false

/-- The classifier result, mirroring struct ImplData. -/
structure ImplData where
  rawInto : ItemStruct
  into : Ident
  generics : List String
  fields : List Ident
  arrayFields : List Ident
  defaultFields : List Ident
  defaultValues : List Expr
deriving DecidableEq, Repr

/-- ImplData::from_parsed_input.  The Rust code unzips a HashMap, whose
iteration order is unspecified; the parameter hashOrder stands for the
iteration order the map happens to use in one run (always a permutation
of the insertion-order association list). -/
def fromParsedInput (hashOrder : List (Ident × Expr) → List (Ident × Expr))
    (input : ItemStruct) : Except String ImplData :=
  match extractDefaultsFromInput input.fields with
  | .error msg => .error msg
  | .ok (strippedFields, defaultsMap) =>
    let ordered := hashOrder defaultsMap
    let defaultFields := ordered.map Prod.fst
    let defaultValues := ordered.map Prod.snd
    let arrayFields :=
      (input.fields.filter fun f => isArrayTy f.ty).filterMap fun f => f.ident
    let fields :=
      ((input.fields.filter fun f => !isArrayTy f.ty).filterMap fun f => f.ident).filter
        fun i => !(decide (i ∈ defaultFields))
    .ok
      { rawInto := { input with fields := strippedFields }
        into := input.ident
        generics := input.generics
        fields := fields
        arrayFields := arrayFields
        defaultFields := defaultFields
        defaultValues := defaultValues }

/-- One field-assignment clause inside the emitted struct literal. -/
inductive Clause where
  | plainConv (f : Ident)
  | arrayFromFn (f : Ident)
  | arrayZeroed (f : Ident)
  | defaultExpr (f : Ident) (e : Expr)
deriving DecidableEq, Repr

/-- The body shape of the emitted From::from: either a single aggregate
literal, or the literal followed by the per-array assert-and-overwrite
loop over the listed array fields. -/
inductive ImplBody where
  | direct (clauses : List Clause)
  | twoPhase (clauses : List Clause) (arrayFields : List Ident)
deriving DecidableEq, Repr

/-- The whole emitted token stream, structured: the re-emitted struct
declaration and the From impl (source path, target name, generics,
body). -/
structure Output where
  emitted : ItemStruct
  source : RPath
  target : Ident
  generics : List String
  body : ImplBody
deriving DecidableEq, Repr

/-- Default clauses, in the order of the unzipped vectors. -/
def mkDefaultClauses (d : ImplData) : List Clause :=
  List.zipWith Clause.defaultExpr d.defaultFields d.defaultValues

/-- Clause list of the array_fields.is_empty() branch of the quote:
plain fields, then array fields via core::array::from_fn, then default
fields. -/
def directClauses (d : ImplData) : List Clause :=
  d.fields.map Clause.plainConv ++ d.arrayFields.map Clause.arrayFromFn
    ++ mkDefaultClauses d

/-- Clause list of the literal in the non-empty branch: plain fields,
then array fields zeroed via core::mem::zeroed, then default fields. -/
def twoPhaseClauses (d : ImplData) : List Clause :=
  d.fields.map Clause.plainConv ++ d.arrayFields.map Clause.arrayZeroed
    ++ mkDefaultClauses d

/-- Branch selection of construct_from_tokenstream on
array_fields.is_empty(), a whole-routine choice. -/
def implBodyOf (d : ImplData) : ImplBody :=
  if d.arrayFields = [] then .direct (directClauses d)
  else .twoPhase (twoPhaseClauses d) d.arrayFields

/-- construct_from_tokenstream. -/
def constructFromTokenstream (hashOrder : List (Ident × Expr) → List (Ident × Expr))
    (fromPath : RPath) (into : ItemStruct) : Except String Output :=
  match fromParsedInput hashOrder into with
  | .error msg => .error msg
  | .ok d =>
    .ok
      { emitted := d.rawInto
        source := fromPath
        target := d.into
        generics := d.generics
        body := implBodyOf d }

/-- The auto_from entry point: attribute argument is the source path. -/
def autoFrom (hashOrder : List (Ident × Expr) → List (Ident × Expr))
    (attrs : RPath) (input : ItemStruct) : Except String Output :=
  constructFromTokenstream hashOrder attrs input

/-- The auto_from_ns entry point: the source path is computed as
from_ns::into_ident from the namespace argument and the own identifier
of the annotated struct. -/
def autoFromNs (hashOrder : List (Ident × Expr) → List (Ident × Expr))
    (fromNs : RPath) (input : ItemStruct) : Except String Output :=
  constructFromTokenstream hashOrder (fromNs ++ [input.ident]) input

/-! Runtime semantics of the emitted impl.  Values are either opaque
scalars or arrays; the generic single-value conversion (Into::into), the
evaluation of default expressions and the source value are parameters. -/

/-- A runtime value: an opaque scalar or an array of values. -/
inductive Value where
  | prim (n : Int)
  | arr (elems : List Value)

/-- Decidable equality of values (the derive handler does not treat the
nested list, so the instance is spelled out). -/
def Value.decEq : (a b : Value) → Decidable (a = b)
  | .prim a, .prim b =>
    if h : a = b then isTrue (by rw [h]) else isFalse (fun hc => h (Value.prim.inj hc))
  | .prim _, .arr _ => isFalse (fun h => Value.noConfusion h)
  | .arr _, .prim _ => isFalse (fun h => Value.noConfusion h)
  | .arr [], .arr [] => isTrue rfl
  | .arr [], .arr (_ :: _) => isFalse (by intro h; injection h with h2; exact List.noConfusion h2)
  | .arr (_ :: _), .arr [] => isFalse (by intro h; injection h with h2; exact List.noConfusion h2)
  | .arr (a :: as), .arr (b :: bs) =>
    match Value.decEq a b, Value.decEq (.arr as) (.arr bs) with
    | isTrue h1, isTrue h2 => isTrue (by rw [h1, Value.arr.inj h2])
    | isFalse h1, _ =>
      isFalse (by intro hc; injection hc with h; injection h with h3 h4; exact h1 h3)
    | isTrue _, isFalse h2 =>
      isFalse (by intro hc; injection hc with h; injection h with h3 h4; exact h2 (h4 ▸ rfl))

instance : DecidableEq Value := Value.decEq

/-- The len() call used by the emitted assert_eq. -/
def vlen : Value → Nat
  | .arr vs => vs.length
  | .prim _ => 0

/-- Indexing value.f[i], as used by core::array::from_fn. -/
def elemAt : Value → Nat → Value
  | .arr vs, i => vs.getD i (.prim 0)
  | v, _ => v

/-- Element type of an array type (identity on other types). -/
def elemTy : RustTy → RustTy
  | .array e _ => e
  | .other n => .other n

/-- The unsafe core::mem::zeroed placeholder: an all-zero bit pattern of
the layout of the type. -/
def zeroVal : RustTy → Value
  | .array e n => .arr (List.replicate n (zeroVal e))
  | .other _ => .prim 0

/-- Semantic context of one conversion: conv t u v is the value of
Into::into at source type t and destination type u, evalDefault is the
evaluation of a default expression in the scope of the fn, srcTy and
srcVal give the type and value of each field of the source. -/
structure ConvEnv where
  conv : RustTy → RustTy → Value → Value
  evalDefault : Expr → Value
  srcTy : Ident → RustTy
  srcVal : Ident → Value

/-- Declared type of a named field in a field list (first declaration
wins, opaque fallback for a name that does not occur). -/
def destTyL (l : List Field) (f : Ident) : RustTy :=
  match l.find? (fun fl => decide (fl.ident = some f)) with
  | some fl => fl.ty
  | none => .other ("")

/-- Declared type of a named destination field. -/
def destTyOf (s : ItemStruct) (f : Ident) : RustTy :=
  destTyL s.fields f

/-- Field named by a clause. -/
def clauseName : Clause → Ident
  | .plainConv f => f
  | .arrayFromFn f => f
  | .arrayZeroed f => f
  | .defaultExpr f _ => f

/-- Value of core::array::from_fn(|i| value.f[i].into()) at destination
element type e and destination length n. -/
def fromFnVal (env : ConvEnv) (f : Ident) (e : RustTy) (n : Nat) : Value :=
  .arr ((List.range n).map fun i =>
    env.conv (elemTy (env.srcTy f)) e (elemAt (env.srcVal f) i))

/-- Value of one literal clause. -/
def evalClause (env : ConvEnv) (dTy : Ident → RustTy) : Clause → Value
  | .plainConv f => env.conv (env.srcTy f) (dTy f) (env.srcVal f)
  | .arrayFromFn f =>
    match dTy f with
    | .array e n => fromFnVal env f e n
    | .other _ => .prim 0
  | .arrayZeroed f => zeroVal (dTy f)
  | .defaultExpr _ e => env.evalDefault e

/-- The constructed destination value, field by field in clause order. -/
abbrev Assoc := List (Ident × Value)

/-- First-match lookup in an association list. -/
def alookup {α : Type} : List (Ident × α) → Ident → Option α
  | [], _ => none
  | (k, v) :: rest, f => if k = f then some v else alookup rest f

/-- Replace the value at the first occurrence of a key (mutation of one
named field of the constructed value). -/
def aupdate {α : Type} : List (Ident × α) → Ident → α → List (Ident × α)
  | [], _, _ => []
  | (k, v) :: rest, f, w => if k = f then (k, w) :: rest else (k, v) :: aupdate rest f w

/-- Evaluate a struct literal: each clause contributes one named field. -/
def evalLiteral (env : ConvEnv) (dTy : Ident → RustTy) (cls : List Clause) : Assoc :=
  cls.map fun c => (clauseName c, evalClause env dTy c)

/-- out.f.iter_mut().zip(value.f.iter()).for_each(|(l, r)| *l = (*r).into()):
overwrite the leading slots of the current array with converted source
slots, keep the tail beyond the zip length. -/
def overwriteArr (g : Value → Value) : Value → Value → Value
  | .arr outs, .arr srcs =>
    .arr (List.zipWith (fun _ r => g r) outs srcs ++ outs.drop srcs.length)
  | .arr outs, .prim _ => .arr outs
  | .prim n, _ => .prim n

/-- One iteration of the post-construction loop for array field f:
assert_eq!(out.f.len(), value.f.len()) aborts the program on mismatch
(modelled as none), then the elementwise overwrite runs. -/
def overwriteField (env : ConvEnv) (dTy : Ident → RustTy) (out : Assoc) (f : Ident) :
    Option Assoc :=
  let cur := (alookup out f).getD (.prim 0)
  if vlen cur = vlen (env.srcVal f) then
    some (aupdate out f
      (overwriteArr (env.conv (elemTy (env.srcTy f)) (elemTy (dTy f))) cur (env.srcVal f)))
  else none

/-- The whole post-construction loop, over the array fields in order. -/
def overwriteAll (env : ConvEnv) (dTy : Ident → RustTy) (arrs : List Ident)
    (st : Option Assoc) : Option Assoc :=
  arrs.foldl (fun acc f => acc.bind fun o => overwriteField env dTy o f) st

/-- Run an emitted body on a source value; none is a runtime abort. -/
def runBody (env : ConvEnv) (dTy : Ident → RustTy) : ImplBody → Option Assoc
  | .direct cls => some (evalLiteral env dTy cls)
  | .twoPhase cls arrs => overwriteAll env dTy arrs (some (evalLiteral env dTy cls))

/-- Run the From impl of a generated output. -/
def runGenerated (env : ConvEnv) (out : Output) : Option Assoc :=
  runBody env (destTyOf out.emitted) out.body

/-- Value an array field holds after its overwrite iteration. -/
def newVal (env : ConvEnv) (dTy : Ident → RustTy) (f : Ident) : Value :=
  overwriteArr (env.conv (elemTy (env.srcTy f)) (elemTy (dTy f))) (zeroVal (dTy f))
    (env.srcVal f)

/-- Check of assert_eq!(out.f.len(), value.f.len()) right after
construction, when out.f still holds the zeroed placeholder. -/
def lengthOkB (env : ConvEnv) (dTy : Ident → RustTy) (f : Ident) : Bool :=
  vlen (zeroVal (dTy f)) == vlen (env.srcVal f)

/-- Boolean success test on an extraction result. -/
def isOkE {ε α : Type} : Except ε α → Bool
  | .ok _ => true
  | .error _ => false

/-- Per-field effect of one extraction pass on the re-emitted field:
a field with an identifier and a recognized default_value has its
attributes filtered by remove_attrs, every other field is unchanged. -/
def stripOne (f : Field) : Field :=
  match autoFromAttrFromField f.attrs, f.ident with
  | .ok (some _), some _ => removeAttrs f
  | _, _ => f


/-! Concrete inputs used by the closed counterexample and witness
theorems below. -/

/-- Fallback struct for total extraction of an ok result. -/
def dummyStruct : ItemStruct :=
  { ident := ("X"), generics := [], fields := [] }

/-- Fallback output for total extraction of an ok result. -/
def dummyOutput : Output :=
  { emitted := dummyStruct, source := [], target := ("X"), generics := [], body := .direct [] }

/-- Total extraction of a generation result. -/
def okOr (r : Except String Output) : Output :=
  match r with
  | .ok o => o
  | .error _ => dummyOutput

/-- Total extraction of a run result. -/
def resOr (r : Option Assoc) : Assoc :=
  match r with
  | some a => a
  | none => []

/-- Insertion order itself, one legitimate hash iteration order. -/
def idOrder : List (Ident × Expr) → List (Ident × Expr) := fun l => l

/-- Reversed insertion order, another legitimate hash iteration order. -/
def revOrder : List (Ident × Expr) → List (Ident × Expr) := fun l => List.reverse l

/-- A destination struct whose only field both has array type and
carries a default_value attribute. -/
def exS1 : ItemStruct :=
  { ident := ("M2")
    generics := []
    fields :=
      [{ ident := some ("data")
         ty := .array (.other ("i32")) 3
         attrs := [.list ("auto_from_attr") [.namedExpr ("default_value") ("zero_arr")]] }] }

/-- The output generated for exS1. -/
def exOut1 : Output := okOr (constructFromTokenstream idOrder [("M1")] exS1)

/-- Names assigned by the clauses of a body, in emission order. -/
def bodyClauseNames : ImplBody → List Ident
  | .direct cls => cls.map clauseName
  | .twoPhase cls _ => cls.map clauseName

/-- A destination struct with one field keeping an argument-less
auto_from_attr attribute and one defaulted field that also carries a
doc (name-value) attribute. -/
def exS2 : ItemStruct :=
  { ident := ("M2")
    generics := []
    fields :=
      [{ ident := some ("a")
         ty := .other ("i32")
         attrs := [.list ("auto_from_attr") []] }
       ,
       { ident := some ("b")
         ty := .other ("i32")
         attrs := [.nameValue ("doc") ("a doc comment"),
                   .list ("auto_from_attr") [.namedExpr ("default_value") ("0")],
                   .list ("serde") [.namedExpr ("rename") ("bb")]] }] }

/-- The output generated for exS2. -/
def exOut2 : Output := okOr (constructFromTokenstream idOrder [("M1")] exS2)

/-- A destination struct with two defaulted fields. -/
def exS3 : ItemStruct :=
  { ident := ("M2")
    generics := []
    fields :=
      [{ ident := some ("a")
         ty := .other ("i32")
         attrs := [.list ("auto_from_attr") [.namedExpr ("default_value") ("1")]] }
       ,
       { ident := some ("b")
         ty := .other ("i32")
         attrs := [.list ("auto_from_attr") [.namedExpr ("default_value") ("2")]] }] }

/-- The default map computed for exS3 in insertion order. -/
def exDefaults3 : List (Ident × Expr) :=
  match extractDefaultsFromInput exS3.fields with
  | .ok p => p.2
  | .error _ => []

/-- Fallback classifier result for total extraction of an ok result. -/
def dummyImplData : ImplData :=
  { rawInto := dummyStruct, into := ("X"), generics := [], fields := []
    arrayFields := [], defaultFields := [], defaultValues := [] }

/-- Total extraction of a classifier result. -/
def okDOr (r : Except String ImplData) : ImplData :=
  match r with
  | .ok d => d
  | .error _ => dummyImplData

/-- Classifier result for exS3 under insertion order. -/
def exD3a : ImplData := okDOr (fromParsedInput idOrder exS3)

/-- Classifier result for exS3 under reversed order. -/
def exD3b : ImplData := okDOr (fromParsedInput revOrder exS3)

/-- A destination struct with a single array field and no attributes. -/
def exFl4 : Field :=
  { ident := some ("data"), ty := .array (.other ("f64")) 2, attrs := [] }

/-- Single array field destination struct. -/
def exS4 : ItemStruct := { ident := ("M2"), generics := [], fields := [exFl4] }

/-- Semantic context for exS4: identity conversion, a two-element source
array. -/
def exEnv4 : ConvEnv :=
  { conv := fun _ _ v => v
    evalDefault := fun _ => .prim 0
    srcTy := fun _ => .array (.other ("f64")) 2
    srcVal := fun _ => .arr [.prim 1, .prim 2] }

/-- The output generated for exS4. -/
def exOut4 : Output := okOr (constructFromTokenstream idOrder [("M1")] exS4)

/-- The classifier result for exS4. -/
def exD4 : ImplData := okDOr (fromParsedInput idOrder exS4)

/-- The run result for exS4. -/
def exRes4 : Assoc := resOr (runGenerated exEnv4 exOut4)

/-- A semantic context for exS4 whose source array has the wrong
length. -/
def exEnv4bad : ConvEnv :=
  { conv := fun _ _ v => v
    evalDefault := fun _ => .prim 0
    srcTy := fun _ => .array (.other ("f64")) 3
    srcVal := fun _ => .arr [.prim 1, .prim 2, .prim 3] }

/-- A destination struct with one defaulted plain field, otherwise a
subset of the source fields with identical names and types. -/
def exS5 : ItemStruct :=
  { ident := ("M2")
    generics := []
    fields :=
      [{ ident := some ("id")
         ty := .other ("i32")
         attrs := [.list ("auto_from_attr") [.namedExpr ("default_value") ("neg_one")]] }] }

/-- Semantic context for exS5: identity conversion, source holds 0, the
default expression evaluates to -1. -/
def exEnv5 : ConvEnv :=
  { conv := fun _ _ v => v
    evalDefault := fun e => if e = "neg_one" then .prim (-1) else .prim 0
    srcTy := fun _ => .other ("i32")
    srcVal := fun _ => .prim 0 }

/-- The output generated for exS5. -/
def exOut5 : Output := okOr (constructFromTokenstream idOrder [("M1")] exS5)

/-- The run result for exS5. -/
def exRes5 : Assoc := resOr (runGenerated exEnv5 exOut5)

/-- A one-plain-field destination struct matching the source. -/
def exS5w : ItemStruct :=
  { ident := ("M2")
    generics := []
    fields := [{ ident := some ("id"), ty := .other ("i32"), attrs := [] }] }

/-- The output generated for exS5w. -/
def exOut5w : Output := okOr (constructFromTokenstream idOrder [("M1")] exS5w)

/-- The run result for exS5w under exEnv5. -/
def exRes5w : Assoc := resOr (runGenerated exEnv5 exOut5w)

/-- A destination struct whose only field is array-typed and carries a
default_value attribute, with a semantics exercising the generated
code. -/
def exS6 : ItemStruct :=
  { ident := ("M2")
    generics := []
    fields :=
      [{ ident := some ("data")
         ty := .array (.other ("i32")) 2
         attrs := [.list ("auto_from_attr") [.namedExpr ("default_value") ("defarr")]] }] }

/-- Semantic context for exS6: identity conversion, the default
expression evaluates to the scalar 7, the source holds [1, 2]. -/
def exEnv6 : ConvEnv :=
  { conv := fun _ _ v => v
    evalDefault := fun _ => .prim 7
    srcTy := fun _ => .array (.other ("i32")) 2
    srcVal := fun _ => .arr [.prim 1, .prim 2] }

/-- The output generated for exS6. -/
def exOut6 : Output := okOr (constructFromTokenstream idOrder [("M1")] exS6)

/-- The run result for exS6. -/
def exRes6 : Assoc := resOr (runGenerated exEnv6 exOut6)

/-- A destination struct with one non-array defaulted field. -/
def exS6w : ItemStruct :=
  { ident := ("M2")
    generics := []
    fields :=
      [{ ident := some ("x")
         ty := .other ("i32")
         attrs := [.list ("auto_from_attr") [.namedExpr ("default_value") ("d7")]] }] }

/-- Semantic context for exS6w. -/
def exEnv6w : ConvEnv :=
  { conv := fun _ _ v => v
    evalDefault := fun _ => .prim 7
    srcTy := fun _ => .other ("i32")
    srcVal := fun _ => .prim 0 }

/-- The output generated for exS6w. -/
def exOut6w : Output := okOr (constructFromTokenstream idOrder [("M1")] exS6w)

/-- The run result for exS6w. -/
def exRes6w : Assoc := resOr (runGenerated exEnv6w exOut6w)

/-- A field whose auto_from_attr attribute carries unparseable tokens. -/
def exF9 : Field :=
  { ident := some ("bad")
    ty := .other ("i32")
    attrs := [.list ("auto_from_attr") [.malformed ("oops")]] }

/-- A destination struct with a malformed generator attribute. -/
def exS9 : ItemStruct :=
  { ident := ("M2")
    generics := []
    fields := [{ ident := some ("a"), ty := .other ("i32"), attrs := [] }, exF9] }

/-- A destination struct with one unnamed (tuple-style) field next to a
named one. -/
def exS10 : ItemStruct :=
  { ident := ("M2")
    generics := []
    fields :=
      [{ ident := none, ty := .other ("i32"), attrs := [] }
       ,
       { ident := some ("n"), ty := .other ("i32"), attrs := [] }] }

/-- The struct restricted to its named fields. -/
def namedOnly (s : ItemStruct) : ItemStruct :=
  { s with fields := s.fields.filter fun f => f.ident.isSome }

/-! Association list lemmas. -/

theorem alookup_append_of_none {α : Type} {A : List (Ident × α)} (B : List (Ident × α))
    (f : Ident) (h : alookup A f = none) : alookup (A ++ B) f = alookup B f := by
  induction A with
  | nil => simp
  | cons p rest ih =>
    rcases p with ⟨k, v⟩
    by_cases hk : k = f
    · simp [alookup, hk] at h
    · simp only [List.cons_append, alookup, if_neg hk] at h ⊢
      exact ih h

theorem alookup_append_of_some {α : Type} {A : List (Ident × α)} (B : List (Ident × α))
    {f : Ident} {v : α} (h : alookup A f = some v) : alookup (A ++ B) f = some v := by
  induction A with
  | nil => simp [alookup] at h
  | cons p rest ih =>
    rcases p with ⟨k, w⟩
    by_cases hk : k = f
    · simp only [alookup, if_pos hk] at h
      simp only [List.cons_append, alookup, if_pos hk]
      exact h
    · simp only [alookup, if_neg hk] at h
      simp only [List.cons_append, alookup, if_neg hk]
      exact ih h

theorem alookup_map_pair {α : Type} (l : List Ident) (h : Ident → α) {f : Ident}
    (hf : f ∈ l) : alookup (l.map fun i => (i, h i)) f = some (h f) := by
  induction l with
  | nil => cases hf
  | cons k rest ih =>
    by_cases hk : k = f
    · subst hk
      simp [alookup]
    · rcases List.mem_cons.mp hf with hh | hh
      · exact absurd hh.symm hk
      · simp only [List.map_cons, alookup, if_neg hk]
        exact ih hh

theorem alookup_map_pair_none {α : Type} (l : List Ident) (h : Ident → α) {f : Ident}
    (hf : f ∉ l) : alookup (l.map fun i => (i, h i)) f = none := by
  induction l with
  | nil => rfl
  | cons k rest ih =>
    have hk : ¬k = f := fun hh => hf (hh ▸ List.mem_cons_self k rest)
    simp only [List.map_cons, alookup, if_neg hk]
    exact ih fun hh => hf (List.mem_cons_of_mem _ hh)

theorem aupdate_append_of_none {α : Type} {A : List (Ident × α)} (B : List (Ident × α))
    {f : Ident} (w : α) (h : alookup A f = none) :
    aupdate (A ++ B) f w = A ++ aupdate B f w := by
  induction A with
  | nil => simp
  | cons p rest ih =>
    rcases p with ⟨k, v⟩
    by_cases hk : k = f
    · simp [alookup, hk] at h
    · simp only [alookup, if_neg hk] at h
      simp only [List.cons_append, aupdate, if_neg hk, List.append_eq]
      rw [ih h]

theorem alookup_aupdate_ne {α : Type} (A : List (Ident × α)) {f g : Ident} (w : α)
    (h : g ≠ f) : alookup (aupdate A f w) g = alookup A g := by
  induction A with
  | nil => rfl
  | cons p rest ih =>
    rcases p with ⟨k, v⟩
    by_cases hk : k = f
    · subst hk
      have hg : ¬k = g := fun hh => h hh.symm
      simp only [aupdate, if_pos rfl, alookup, if_neg hg]
    · by_cases hg : k = g
      · simp only [aupdate, if_neg hk, alookup, if_pos hg]
      · simp only [aupdate, if_neg hk, alookup, if_neg hg]
        exact ih

theorem mem_of_alookup_eq_some {α : Type} :
    ∀ {l : List (Ident × α)} {k : Ident} {v : α}, alookup l k = some v → (k, v) ∈ l := by
  intro l
  induction l with
  | nil => intro k v h; cases h
  | cons p rest ih =>
    intro k v h
    rcases p with ⟨k0, v0⟩
    by_cases hk : k0 = k
    · subst hk
      simp only [alookup, if_pos rfl] at h
      exact (Option.some.inj h) ▸ List.mem_cons_self _ _
    · simp only [alookup, if_neg hk] at h
      exact List.mem_cons_of_mem _ (ih h)

theorem alookup_map_of_mem_nodup {α β : Type} {l : List (Ident × α)} (g : α → β)
    (hnd : (l.map Prod.fst).Nodup) {k : Ident} {v : α} (hm : (k, v) ∈ l) :
    alookup (l.map fun p => (p.1, g p.2)) k = some (g v) := by
  induction l with
  | nil => cases hm
  | cons p rest ih =>
    rcases p with ⟨k0, v0⟩
    simp only [List.map_cons, List.nodup_cons] at hnd
    by_cases hk : k0 = k
    · subst hk
      rcases List.mem_cons.mp hm with hh | hh
      · rcases Prod.mk.injEq .. ▸ hh with ⟨_, rfl⟩
        simp [alookup]
      · exact absurd (List.mem_map_of_mem Prod.fst hh) hnd.1
    · rcases List.mem_cons.mp hm with hh | hh
      · exact absurd (congrArg Prod.fst hh).symm hk
      · simp only [List.map_cons, alookup, if_neg hk]
        exact ih hnd.2 hh

/-! Lemmas on assocInsert (the HashMap::insert model). -/

theorem alookup_assocInsert_self {α : Type} (l : List (Ident × α)) (k : Ident) (v : α) :
    alookup (assocInsert l k v) k = some v := by
  induction l with
  | nil => simp [assocInsert, alookup]
  | cons p rest ih =>
    rcases p with ⟨k0, v0⟩
    by_cases hk : k0 = k
    · simp [assocInsert, if_pos hk, alookup]
    · simp only [assocInsert, if_neg hk, alookup, if_neg hk]
      exact ih

theorem alookup_assocInsert_ne {α : Type} (l : List (Ident × α)) (k : Ident) (v : α)
    {g : Ident} (h : g ≠ k) : alookup (assocInsert l k v) g = alookup l g := by
  induction l with
  | nil =>
    have hg : ¬k = g := fun hh => h hh.symm
    simp [assocInsert, alookup, if_neg hg]
  | cons p rest ih =>
    rcases p with ⟨k0, v0⟩
    by_cases hk : k0 = k
    · subst hk
      have hg : ¬k0 = g := fun hh => h hh.symm
      simp only [assocInsert, if_pos rfl, alookup, if_neg hg]
    · by_cases hg : k0 = g
      · simp only [assocInsert, if_neg hk, alookup, if_pos hg]
      · simp only [assocInsert, if_neg hk, alookup, if_neg hg]
        exact ih

theorem mem_keys_assocInsert {α : Type} :
    ∀ {l : List (Ident × α)} {k : Ident} {v : α} {g : Ident},
      g ∈ (assocInsert l k v).map Prod.fst ↔ g = k ∨ g ∈ l.map Prod.fst := by
  intro l
  induction l with
  | nil => intro k v g; simp [assocInsert]
  | cons p rest ih =>
    intro k v g
    rcases p with ⟨k0, v0⟩
    by_cases hk : k0 = k
    · subst hk
      unfold assocInsert
      rw [if_pos rfl]
      simp only [List.map_cons, List.mem_cons]
      tauto
    · simp only [assocInsert, if_neg hk, List.map_cons, List.mem_cons, ih]
      tauto

theorem assocInsert_keys_nodup {α : Type} :
    ∀ {l : List (Ident × α)} {k : Ident} {v : α},
      (l.map Prod.fst).Nodup → ((assocInsert l k v).map Prod.fst).Nodup := by
  intro l
  induction l with
  | nil => intro k v _; simp [assocInsert]
  | cons p rest ih =>
    intro k v h
    rcases p with ⟨k0, v0⟩
    simp only [List.map_cons, List.nodup_cons] at h
    by_cases hk : k0 = k
    · subst hk
      simpa [assocInsert, List.nodup_cons] using h
    · simp only [assocInsert, if_neg hk, List.map_cons, List.nodup_cons]
      refine ⟨fun hm => ?_, ih h.2⟩
      rcases mem_keys_assocInsert.mp hm with rfl | hm2
      · exact hk rfl
      · exact h.1 hm2

/-! Lemmas on the post-construction overwrite loop. -/

theorem overwriteAll_nil (env : ConvEnv) (dTy : Ident → RustTy) (st : Option Assoc) :
    overwriteAll env dTy [] st = st := rfl

theorem overwriteAll_cons (env : ConvEnv) (dTy : Ident → RustTy) (f : Ident)
    (arrs : List Ident) (st : Option Assoc) :
    overwriteAll env dTy (f :: arrs) st =
      overwriteAll env dTy arrs (st.bind fun o => overwriteField env dTy o f) := rfl

theorem overwriteAll_none (env : ConvEnv) (dTy : Ident → RustTy) (arrs : List Ident) :
    overwriteAll env dTy arrs none = none := by
  induction arrs with
  | nil => rfl
  | cons f rest ih => rw [overwriteAll_cons]; exact ih

theorem overwriteField_eq_some {env : ConvEnv} {dTy : Ident → RustTy} {A : Assoc}
    {f : Ident} {A2 : Assoc} (h : overwriteField env dTy A f = some A2) :
    A2 = aupdate A f (overwriteArr (env.conv (elemTy (env.srcTy f)) (elemTy (dTy f)))
      ((alookup A f).getD (.prim 0)) (env.srcVal f)) := by
  simp only [overwriteField] at h
  split at h
  · exact (Option.some.inj h).symm
  · cases h

theorem overwriteAll_alookup_of_notmem (env : ConvEnv) (dTy : Ident → RustTy) :
    ∀ (arrs : List Ident) {g : Ident}, g ∉ arrs →
      ∀ {A B : Assoc}, overwriteAll env dTy arrs (some A) = some B →
      alookup B g = alookup A g := by
  intro arrs
  induction arrs with
  | nil =>
    intro g _ A B h
    cases h
    rfl
  | cons f rest ih =>
    intro g hg A B h
    rw [overwriteAll_cons] at h
    have h3 : overwriteAll env dTy rest (overwriteField env dTy A f) = some B := h
    rcases h2 : overwriteField env dTy A f with _ | A2
    · rw [h2, overwriteAll_none] at h3
      cases h3
    · rw [h2] at h3
      have hgR : g ∉ rest := fun hh => hg (List.mem_cons_of_mem _ hh)
      have hgf : g ≠ f := fun hh => hg (hh ▸ List.mem_cons_self f rest)
      rw [ih hgR h3, overwriteField_eq_some h2, alookup_aupdate_ne _ _ hgf]

/-! Lemmas on zeroed placeholders and the elementwise overwrite. -/

theorem vlen_zeroVal_array (e : RustTy) (n : Nat) : vlen (zeroVal (.array e n)) = n := by
  simp [zeroVal, vlen]

theorem zipWith_const_replicate (g : Value → Value) :
    ∀ (vs : List Value) (z : Value),
      List.zipWith (fun _ r => g r) (List.replicate vs.length z) vs = vs.map g := by
  intro vs
  induction vs with
  | nil => intro z; rfl
  | cons v rest ih =>
    intro z
    simp only [List.length_cons, List.replicate_succ, List.zipWith_cons_cons, List.map_cons]
    rw [ih z]

theorem overwriteArr_replicate (g : Value → Value) {n : Nat} (z : Value) {vs : List Value}
    (h : vs.length = n) :
    overwriteArr g (.arr (List.replicate n z)) (.arr vs) = .arr (vs.map g) := by
  subst h
  have hd : (List.replicate vs.length z).drop vs.length = [] :=
    List.drop_eq_nil_of_le (by simp)
  simp only [overwriteArr, zipWith_const_replicate, hd, List.append_nil]

theorem overwriteArr_zero_array (g : Value → Value) {e : RustTy} {n : Nat} {vs : List Value}
    (h : vs.length = n) :
    overwriteArr g (zeroVal (.array e n)) (.arr vs) = .arr (vs.map g) := by
  simp only [zeroVal]
  exact overwriteArr_replicate g _ h

theorem range_map_getD (g : Value → Value) :
    ∀ (vs : List Value) (d : Value),
      (List.range vs.length).map (fun i => g (vs.getD i d)) = vs.map g := by
  intro vs
  induction vs with
  | nil => intro d; rfl
  | cons v rest ih =>
    intro d
    rw [List.length_cons, List.range_succ_eq_map, List.map_cons, List.map_map]
    have h2 : ((fun i => g ((v :: rest).getD i d)) ∘ fun i => i + 1)
        = fun i => g (rest.getD i d) := by
      funext i
      simp [List.getD_cons_succ]
    rw [h2, ih d]
    simp [List.getD_cons_zero]

theorem fromFnVal_eq_map (env : ConvEnv) {f : Ident} (e : RustTy) {vs : List Value}
    (hsv : env.srcVal f = .arr vs) {n : Nat} (h : vs.length = n) :
    fromFnVal env f e n = .arr (vs.map (env.conv (elemTy (env.srcTy f)) e)) := by
  subst h
  simp only [fromFnVal, hsv, elemAt]
  rw [range_map_getD]

/-! The exact effect of the whole assert-and-overwrite loop on a literal
of the shape plain-entries, zeroed array entries, default entries. -/

theorem overwriteAll_sections (env : ConvEnv) (dTy : Ident → RustTy) :
    ∀ (arrs : List Ident), arrs.Nodup →
      ∀ (P F : Assoc), (∀ f ∈ arrs, alookup P f = none) →
      overwriteAll env dTy arrs
          (some (P ++ ((arrs.map fun f => (f, zeroVal (dTy f))) ++ F))) =
        (if arrs.all (lengthOkB env dTy) then
          some (P ++ ((arrs.map fun f => (f, newVal env dTy f)) ++ F))
        else none) := by
  intro arrs
  induction arrs with
  | nil =>
    intro _ P F _
    simp [overwriteAll]
  | cons f rest ih =>
    intro hnd P F hP
    have hfrest : f ∉ rest := (List.nodup_cons.mp hnd).1
    have hndr : rest.Nodup := (List.nodup_cons.mp hnd).2
    have hPf : alookup P f = none := hP f (List.mem_cons_self f rest)
    rw [overwriteAll_cons]
    have hAf : alookup
        (P ++ ((f, zeroVal (dTy f)) :: ((rest.map fun g => (g, zeroVal (dTy g))) ++ F))) f
        = some (zeroVal (dTy f)) := by
      rw [alookup_append_of_none _ _ hPf]
      simp [alookup]
    have hstep : ((some (P ++ (((f :: rest).map fun g => (g, zeroVal (dTy g))) ++ F))).bind
        fun o => overwriteField env dTy o f)
        = overwriteField env dTy
            (P ++ ((f, zeroVal (dTy f)) :: ((rest.map fun g => (g, zeroVal (dTy g))) ++ F))) f := by
      simp only [List.map_cons, List.cons_append, Option.some_bind]
    rw [hstep]
    by_cases hlen : vlen (zeroVal (dTy f)) = vlen (env.srcVal f)
    · have hupd : overwriteField env dTy
          (P ++ ((f, zeroVal (dTy f)) :: ((rest.map fun g => (g, zeroVal (dTy g))) ++ F))) f
          = some ((P ++ [(f, newVal env dTy f)])
              ++ ((rest.map fun g => (g, zeroVal (dTy g))) ++ F)) := by
        simp only [overwriteField, hAf, Option.getD_some, if_pos hlen]
        rw [aupdate_append_of_none _ _ hPf]
        simp only [aupdate, if_pos rfl]
        rw [List.append_assoc, List.singleton_append]
        rfl
      rw [hupd]
      have hP2 : ∀ g ∈ rest, alookup (P ++ [(f, newVal env dTy f)]) g = none := by
        intro g hg
        rw [alookup_append_of_none _ _ (hP g (List.mem_cons_of_mem _ hg))]
        have hgf : ¬f = g := fun hh => hfrest (hh ▸ hg)
        simp [alookup, if_neg hgf]
      rw [ih hndr (P ++ [(f, newVal env dTy f)]) F hP2]
      have hok : lengthOkB env dTy f = true := beq_iff_eq.mpr hlen
      simp only [List.all_cons, hok, Bool.true_and, List.map_cons, List.cons_append,
        List.append_assoc, List.singleton_append, List.nil_append]
    · have hupd : overwriteField env dTy
          (P ++ ((f, zeroVal (dTy f)) :: ((rest.map fun g => (g, zeroVal (dTy g))) ++ F))) f
          = none := by
        simp only [overwriteField, hAf, Option.getD_some, if_neg hlen]
      rw [hupd, overwriteAll_none]
      have hok : lengthOkB env dTy f = false := by
        simp [lengthOkB, hlen]
      simp only [List.all_cons, hok, Bool.false_and, if_neg (by simp : ¬False = true)]
      simp

/-! Lemmas on attribute extraction and the classifier. -/

theorem stripOne_ident (f : Field) : (stripOne f).ident = f.ident := by
  unfold stripOne
  split
  · rfl
  · rfl

theorem stripOne_ty (f : Field) : (stripOne f).ty = f.ty := by
  unfold stripOne
  split
  · rfl
  · rfl

theorem extractGo_ok_fields :
    ∀ (fl : List Field) (acc : List (Ident × Expr)) {fl2 : List Field}
      {d : List (Ident × Expr)},
      extractDefaultsGo acc fl = .ok (fl2, d) → fl2 = fl.map stripOne := by
  intro fl
  induction fl with
  | nil =>
    intro acc fl2 d h
    cases h
    rfl
  | cons f rest ih =>
    intro acc fl2 d h
    cases hp : autoFromAttrFromField f.attrs with
    | error msg =>
      simp only [extractDefaultsGo, hp] at h
      exact Except.noConfusion h
    | ok dv =>
      cases hi : f.ident with
      | some i =>
        cases dv with
        | some e =>
          cases hr : extractDefaultsGo (assocInsert acc i e) rest with
          | error msg =>
            simp only [extractDefaultsGo, hp, hi, hr] at h
            exact Except.noConfusion h
          | ok pr =>
            rcases pr with ⟨rest2, ds⟩
            simp only [extractDefaultsGo, hp, hi, hr, Except.ok.injEq, Prod.mk.injEq] at h
            obtain ⟨h1, h2⟩ := h
            subst h1
            rw [List.map_cons, ih _ hr]
            simp [stripOne, hp, hi]
        | none =>
          cases hr : extractDefaultsGo acc rest with
          | error msg =>
            simp only [extractDefaultsGo, hp, hi, hr] at h
            exact Except.noConfusion h
          | ok pr =>
            rcases pr with ⟨rest2, ds⟩
            simp only [extractDefaultsGo, hp, hi, hr, Except.ok.injEq, Prod.mk.injEq] at h
            obtain ⟨h1, h2⟩ := h
            subst h1
            rw [List.map_cons, ih _ hr]
            simp [stripOne, hp, hi]
      | none =>
        cases dv with
        | some e =>
          cases hr : extractDefaultsGo acc rest with
          | error msg =>
            simp only [extractDefaultsGo, hp, hi, hr] at h
            exact Except.noConfusion h
          | ok pr =>
            rcases pr with ⟨rest2, ds⟩
            simp only [extractDefaultsGo, hp, hi, hr, Except.ok.injEq, Prod.mk.injEq] at h
            obtain ⟨h1, h2⟩ := h
            subst h1
            rw [List.map_cons, ih _ hr]
            simp [stripOne, hp, hi]
        | none =>
          cases hr : extractDefaultsGo acc rest with
          | error msg =>
            simp only [extractDefaultsGo, hp, hi, hr] at h
            exact Except.noConfusion h
          | ok pr =>
            rcases pr with ⟨rest2, ds⟩
            simp only [extractDefaultsGo, hp, hi, hr, Except.ok.injEq, Prod.mk.injEq] at h
            obtain ⟨h1, h2⟩ := h
            subst h1
            rw [List.map_cons, ih _ hr]
            simp [stripOne, hp, hi]

theorem extractGo_ok_of_all_ok :
    ∀ (fl : List Field) (acc : List (Ident × Expr)),
      (∀ f ∈ fl, isOkE (autoFromAttrFromField f.attrs) = true) →
      ∃ fl2 d, extractDefaultsGo acc fl = .ok (fl2, d) := by
  intro fl
  induction fl with
  | nil => intro acc _; exact ⟨[], acc, rfl⟩
  | cons f rest ih =>
    intro acc hall
    have hf := hall f (List.mem_cons_self f rest)
    have hrest : ∀ g ∈ rest, isOkE (autoFromAttrFromField g.attrs) = true :=
      fun g hg => hall g (List.mem_cons_of_mem _ hg)
    cases hp : autoFromAttrFromField f.attrs with
    | error msg => rw [hp] at hf; cases hf
    | ok dv =>
      cases hi : f.ident with
      | some i =>
        cases dv with
        | some e =>
          obtain ⟨fl2, d, hr⟩ := ih (assocInsert acc i e) hrest
          exact ⟨removeAttrs f :: fl2, d, by simp only [extractDefaultsGo, hp, hi, hr]⟩
        | none =>
          obtain ⟨fl2, d, hr⟩ := ih acc hrest
          exact ⟨f :: fl2, d, by simp only [extractDefaultsGo, hp, hi, hr]⟩
      | none =>
        cases dv with
        | some e =>
          obtain ⟨fl2, d, hr⟩ := ih acc hrest
          exact ⟨f :: fl2, d, by simp only [extractDefaultsGo, hp, hi, hr]⟩
        | none =>
          obtain ⟨fl2, d, hr⟩ := ih acc hrest
          exact ⟨f :: fl2, d, by simp only [extractDefaultsGo, hp, hi, hr]⟩

theorem extractGo_error_of_mem :
    ∀ (fl : List Field) (acc : List (Ident × Expr)) {f : Field}, f ∈ fl →
      isOkE (autoFromAttrFromField f.attrs) = false →
      ∃ msg, extractDefaultsGo acc fl = .error msg := by
  intro fl
  induction fl with
  | nil => intro acc f hf _; cases hf
  | cons g rest ih =>
    intro acc f hf hbad
    cases hp : autoFromAttrFromField g.attrs with
    | error msg => exact ⟨msg, by simp only [extractDefaultsGo, hp]⟩
    | ok dv =>
      have hfr : f ∈ rest := by
        rcases List.mem_cons.mp hf with rfl | hh
        · rw [hp] at hbad; cases hbad
        · exact hh
      cases hi : g.ident with
      | some i =>
        cases dv with
        | some e =>
          obtain ⟨msg, hr⟩ := ih (assocInsert acc i e) hfr hbad
          exact ⟨msg, by simp only [extractDefaultsGo, hp, hi, hr]⟩
        | none =>
          obtain ⟨msg, hr⟩ := ih acc hfr hbad
          exact ⟨msg, by simp only [extractDefaultsGo, hp, hi, hr]⟩
      | none =>
        cases dv with
        | some e =>
          obtain ⟨msg, hr⟩ := ih acc hfr hbad
          exact ⟨msg, by simp only [extractDefaultsGo, hp, hi, hr]⟩
        | none =>
          obtain ⟨msg, hr⟩ := ih acc hfr hbad
          exact ⟨msg, by simp only [extractDefaultsGo, hp, hi, hr]⟩

theorem extractGo_alookup_of_no_ident :
    ∀ (fl : List Field) (acc : List (Ident × Expr)) {fl2 : List Field}
      {d : List (Ident × Expr)} {nm : Ident},
      extractDefaultsGo acc fl = .ok (fl2, d) →
      (∀ g ∈ fl, g.ident ≠ some nm) → alookup d nm = alookup acc nm := by
  intro fl
  induction fl with
  | nil =>
    intro acc fl2 d nm h _
    cases h
    rfl
  | cons f rest ih =>
    intro acc fl2 d nm h hno
    have hfn : f.ident ≠ some nm := hno f (List.mem_cons_self f rest)
    have hrest : ∀ g ∈ rest, g.ident ≠ some nm :=
      fun g hg => hno g (List.mem_cons_of_mem _ hg)
    cases hp : autoFromAttrFromField f.attrs with
    | error msg =>
      simp only [extractDefaultsGo, hp] at h
      exact Except.noConfusion h
    | ok dv =>
      cases hi : f.ident with
      | some i =>
        have hinm : i ≠ nm := fun hh => hfn (hh ▸ hi)
        cases dv with
        | some e =>
          cases hr : extractDefaultsGo (assocInsert acc i e) rest with
          | error msg =>
            simp only [extractDefaultsGo, hp, hi, hr] at h
            exact Except.noConfusion h
          | ok pr =>
            rcases pr with ⟨rest2, ds⟩
            simp only [extractDefaultsGo, hp, hi, hr, Except.ok.injEq, Prod.mk.injEq] at h
            obtain ⟨h1, h2⟩ := h
            subst h2
            rw [ih _ hr hrest, alookup_assocInsert_ne _ _ _ (fun hh => hinm hh.symm)]
        | none =>
          cases hr : extractDefaultsGo acc rest with
          | error msg =>
            simp only [extractDefaultsGo, hp, hi, hr] at h
            exact Except.noConfusion h
          | ok pr =>
            rcases pr with ⟨rest2, ds⟩
            simp only [extractDefaultsGo, hp, hi, hr, Except.ok.injEq, Prod.mk.injEq] at h
            obtain ⟨h1, h2⟩ := h
            subst h2
            exact ih _ hr hrest
      | none =>
        cases dv with
        | some e =>
          cases hr : extractDefaultsGo acc rest with
          | error msg =>
            simp only [extractDefaultsGo, hp, hi, hr] at h
            exact Except.noConfusion h
          | ok pr =>
            rcases pr with ⟨rest2, ds⟩
            simp only [extractDefaultsGo, hp, hi, hr, Except.ok.injEq, Prod.mk.injEq] at h
            obtain ⟨h1, h2⟩ := h
            subst h2
            exact ih _ hr hrest
        | none =>
          cases hr : extractDefaultsGo acc rest with
          | error msg =>
            simp only [extractDefaultsGo, hp, hi, hr] at h
            exact Except.noConfusion h
          | ok pr =>
            rcases pr with ⟨rest2, ds⟩
            simp only [extractDefaultsGo, hp, hi, hr, Except.ok.injEq, Prod.mk.injEq] at h
            obtain ⟨h1, h2⟩ := h
            subst h2
            exact ih _ hr hrest

theorem nodup_idents_tail {a : Field} {rest : List Field}
    (h : (((a :: rest).filterMap fun f => f.ident)).Nodup) :
    ((rest.filterMap fun f => f.ident)).Nodup := by
  cases ha : a.ident with
  | none => rwa [List.filterMap_cons_none ha] at h
  | some i =>
    rw [List.filterMap_cons_some ha] at h
    exact h.of_cons

theorem head_ident_notmem {a : Field} {rest : List Field} {nm : Ident}
    (h : (((a :: rest).filterMap fun f => f.ident)).Nodup) (ha : a.ident = some nm) :
    ∀ g ∈ rest, g.ident ≠ some nm := by
  intro g hg hgn
  rw [List.filterMap_cons_some ha] at h
  exact (List.nodup_cons.mp h).1 (List.mem_filterMap.mpr ⟨g, hg, hgn⟩)

theorem extractGo_alookup_self :
    ∀ (fl : List Field) (acc : List (Ident × Expr)) {fl2 : List Field}
      {d : List (Ident × Expr)} {fld : Field} {nm : Ident} {e : Expr},
      extractDefaultsGo acc fl = .ok (fl2, d) →
      fld ∈ fl → fld.ident = some nm →
      autoFromAttrFromField fld.attrs = .ok (some e) →
      ((fl.filterMap fun g => g.ident)).Nodup →
      alookup d nm = some e := by
  intro fl
  induction fl with
  | nil => intro acc fl2 d fld nm e _ hmem; cases hmem
  | cons f rest ih =>
    intro acc fl2 d fld nm e h hmem hid hpd hnd
    rcases List.mem_cons.mp hmem with rfl | hfldrest
    · cases hp : autoFromAttrFromField fld.attrs with
      | error msg =>
        simp only [extractDefaultsGo, hp] at h
        exact Except.noConfusion h
      | ok dv =>
        rw [hp] at hpd
        have hdv : dv = some e := Except.ok.inj hpd
        subst hdv
        cases hr : extractDefaultsGo (assocInsert acc nm e) rest with
        | error msg =>
          simp only [extractDefaultsGo, hp, hid, hr] at h
          exact Except.noConfusion h
        | ok pr =>
          rcases pr with ⟨rest2, ds⟩
          simp only [extractDefaultsGo, hp, hid, hr, Except.ok.injEq, Prod.mk.injEq] at h
          obtain ⟨h1, h2⟩ := h
          subst h2
          rw [extractGo_alookup_of_no_ident rest _ hr (head_ident_notmem hnd hid)]
          exact alookup_assocInsert_self _ _ _
    · have hndr := nodup_idents_tail hnd
      have hnmrest : nm ∈ rest.filterMap fun g => g.ident :=
        List.mem_filterMap.mpr ⟨fld, hfldrest, hid⟩
      cases hp : autoFromAttrFromField f.attrs with
      | error msg =>
        simp only [extractDefaultsGo, hp] at h
        exact Except.noConfusion h
      | ok dv =>
        cases hi : f.ident with
        | some i =>
          have hinm : i ≠ nm := by
            intro hh
            subst hh
            rw [List.filterMap_cons_some hi] at hnd
            exact (List.nodup_cons.mp hnd).1 hnmrest
          cases dv with
          | some e2 =>
            cases hr : extractDefaultsGo (assocInsert acc i e2) rest with
            | error msg =>
              simp only [extractDefaultsGo, hp, hi, hr] at h
              exact Except.noConfusion h
            | ok pr =>
              rcases pr with ⟨rest2, ds⟩
              simp only [extractDefaultsGo, hp, hi, hr, Except.ok.injEq, Prod.mk.injEq] at h
              obtain ⟨h1, h2⟩ := h
              subst h2
              exact ih _ hr hfldrest hid hpd hndr
          | none =>
            cases hr : extractDefaultsGo acc rest with
            | error msg =>
              simp only [extractDefaultsGo, hp, hi, hr] at h
              exact Except.noConfusion h
            | ok pr =>
              rcases pr with ⟨rest2, ds⟩
              simp only [extractDefaultsGo, hp, hi, hr, Except.ok.injEq, Prod.mk.injEq] at h
              obtain ⟨h1, h2⟩ := h
              subst h2
              exact ih _ hr hfldrest hid hpd hndr
        | none =>
          cases dv with
          | some e2 =>
            cases hr : extractDefaultsGo acc rest with
            | error msg =>
              simp only [extractDefaultsGo, hp, hi, hr] at h
              exact Except.noConfusion h
            | ok pr =>
              rcases pr with ⟨rest2, ds⟩
              simp only [extractDefaultsGo, hp, hi, hr, Except.ok.injEq, Prod.mk.injEq] at h
              obtain ⟨h1, h2⟩ := h
              subst h2
              exact ih _ hr hfldrest hid hpd hndr
          | none =>
            cases hr : extractDefaultsGo acc rest with
            | error msg =>
              simp only [extractDefaultsGo, hp, hi, hr] at h
              exact Except.noConfusion h
            | ok pr =>
              rcases pr with ⟨rest2, ds⟩
              simp only [extractDefaultsGo, hp, hi, hr, Except.ok.injEq, Prod.mk.injEq] at h
              obtain ⟨h1, h2⟩ := h
              subst h2
              exact ih _ hr hfldrest hid hpd hndr

theorem extractGo_keys_nodup :
    ∀ (fl : List Field) (acc : List (Ident × Expr)) {fl2 : List Field}
      {d : List (Ident × Expr)}, (acc.map Prod.fst).Nodup →
      extractDefaultsGo acc fl = .ok (fl2, d) → (d.map Prod.fst).Nodup := by
  intro fl
  induction fl with
  | nil =>
    intro acc fl2 d hacc h
    cases h
    exact hacc
  | cons f rest ih =>
    intro acc fl2 d hacc h
    cases hp : autoFromAttrFromField f.attrs with
    | error msg =>
      simp only [extractDefaultsGo, hp] at h
      exact Except.noConfusion h
    | ok dv =>
      cases hi : f.ident with
      | some i =>
        cases dv with
        | some e =>
          cases hr : extractDefaultsGo (assocInsert acc i e) rest with
          | error msg =>
            simp only [extractDefaultsGo, hp, hi, hr] at h
            exact Except.noConfusion h
          | ok pr =>
            rcases pr with ⟨rest2, ds⟩
            simp only [extractDefaultsGo, hp, hi, hr, Except.ok.injEq, Prod.mk.injEq] at h
            obtain ⟨h1, h2⟩ := h
            subst h2
            exact ih _ (assocInsert_keys_nodup hacc) hr
        | none =>
          cases hr : extractDefaultsGo acc rest with
          | error msg =>
            simp only [extractDefaultsGo, hp, hi, hr] at h
            exact Except.noConfusion h
          | ok pr =>
            rcases pr with ⟨rest2, ds⟩
            simp only [extractDefaultsGo, hp, hi, hr, Except.ok.injEq, Prod.mk.injEq] at h
            obtain ⟨h1, h2⟩ := h
            subst h2
            exact ih _ hacc hr
      | none =>
        cases dv with
        | some e =>
          cases hr : extractDefaultsGo acc rest with
          | error msg =>
            simp only [extractDefaultsGo, hp, hi, hr] at h
            exact Except.noConfusion h
          | ok pr =>
            rcases pr with ⟨rest2, ds⟩
            simp only [extractDefaultsGo, hp, hi, hr, Except.ok.injEq, Prod.mk.injEq] at h
            obtain ⟨h1, h2⟩ := h
            subst h2
            exact ih _ hacc hr
        | none =>
          cases hr : extractDefaultsGo acc rest with
          | error msg =>
            simp only [extractDefaultsGo, hp, hi, hr] at h
            exact Except.noConfusion h
          | ok pr =>
            rcases pr with ⟨rest2, ds⟩
            simp only [extractDefaultsGo, hp, hi, hr, Except.ok.injEq, Prod.mk.injEq] at h
            obtain ⟨h1, h2⟩ := h
            subst h2
            exact ih _ hacc hr

theorem extractGo_no_defaults :
    ∀ (fl : List Field) (acc : List (Ident × Expr)) {fl2 : List Field}
      {d : List (Ident × Expr)},
      (∀ f ∈ fl, autoFromAttrFromField f.attrs = .ok none) →
      extractDefaultsGo acc fl = .ok (fl2, d) → d = acc := by
  intro fl
  induction fl with
  | nil =>
    intro acc fl2 d _ h
    cases h
    rfl
  | cons f rest ih =>
    intro acc fl2 d hall h
    have hp : autoFromAttrFromField f.attrs = .ok none :=
      hall f (List.mem_cons_self f rest)
    have hrest : ∀ g ∈ rest, autoFromAttrFromField g.attrs = .ok none :=
      fun g hg => hall g (List.mem_cons_of_mem _ hg)
    cases hi : f.ident with
    | some i =>
      cases hr : extractDefaultsGo acc rest with
      | error msg =>
        simp only [extractDefaultsGo, hp, hi, hr] at h
        exact Except.noConfusion h
      | ok pr =>
        rcases pr with ⟨rest2, ds⟩
        simp only [extractDefaultsGo, hp, hi, hr, Except.ok.injEq, Prod.mk.injEq] at h
        obtain ⟨h1, h2⟩ := h
        subst h2
        exact ih _ hrest hr
    | none =>
      cases hr : extractDefaultsGo acc rest with
      | error msg =>
        simp only [extractDefaultsGo, hp, hi, hr] at h
        exact Except.noConfusion h
      | ok pr =>
        rcases pr with ⟨rest2, ds⟩
        simp only [extractDefaultsGo, hp, hi, hr, Except.ok.injEq, Prod.mk.injEq] at h
        obtain ⟨h1, h2⟩ := h
        subst h2
        exact ih _ hrest hr

theorem extractGo_skip_unnamed :
    ∀ (fl : List Field) (acc : List (Ident × Expr)),
      (∀ f ∈ fl, isOkE (autoFromAttrFromField f.attrs) = true) →
      ∃ fl2 fl3 d, extractDefaultsGo acc fl = .ok (fl2, d) ∧
        extractDefaultsGo acc (fl.filter fun f => f.ident.isSome) = .ok (fl3, d) := by
  intro fl
  induction fl with
  | nil => intro acc _; exact ⟨[], [], acc, rfl, rfl⟩
  | cons f rest ih =>
    intro acc hall
    have hf := hall f (List.mem_cons_self f rest)
    have hrest : ∀ g ∈ rest, isOkE (autoFromAttrFromField g.attrs) = true :=
      fun g hg => hall g (List.mem_cons_of_mem _ hg)
    cases hp : autoFromAttrFromField f.attrs with
    | error msg => rw [hp] at hf; cases hf
    | ok dv =>
      cases hi : f.ident with
      | some i =>
        have hkeep : (f :: rest).filter (fun f => f.ident.isSome)
            = f :: rest.filter fun f => f.ident.isSome := by
          rw [List.filter_cons_of_pos]
          rw [hi]
          rfl
        cases dv with
        | some e =>
          obtain ⟨fl2, fl3, d, hr1, hr2⟩ := ih (assocInsert acc i e) hrest
          refine ⟨removeAttrs f :: fl2, removeAttrs f :: fl3, d, ?_, ?_⟩
          · simp only [extractDefaultsGo, hp, hi, hr1]
          · rw [hkeep]
            simp only [extractDefaultsGo, hp, hi, hr2]
        | none =>
          obtain ⟨fl2, fl3, d, hr1, hr2⟩ := ih acc hrest
          refine ⟨f :: fl2, f :: fl3, d, ?_, ?_⟩
          · simp only [extractDefaultsGo, hp, hi, hr1]
          · rw [hkeep]
            simp only [extractDefaultsGo, hp, hi, hr2]
      | none =>
        have hdrop : (f :: rest).filter (fun f => f.ident.isSome)
            = rest.filter fun f => f.ident.isSome := by
          rw [List.filter_cons_of_neg]
          rw [hi]
          simp
        cases dv with
        | some e =>
          obtain ⟨fl2, fl3, d, hr1, hr2⟩ := ih acc hrest
          refine ⟨f :: fl2, fl3, d, ?_, ?_⟩
          · simp only [extractDefaultsGo, hp, hi, hr1]
          · rw [hdrop]
            exact hr2
        | none =>
          obtain ⟨fl2, fl3, d, hr1, hr2⟩ := ih acc hrest
          refine ⟨f :: fl2, fl3, d, ?_, ?_⟩
          · simp only [extractDefaultsGo, hp, hi, hr1]
          · rw [hdrop]
            exact hr2

/-! Uniqueness of named fields under a duplicate-free identifier list. -/

theorem ident_unique_of_nodup :
    ∀ {l : List Field}, ((l.filterMap fun f => f.ident)).Nodup →
      ∀ {f g : Field} {nm : Ident}, f ∈ l → g ∈ l →
        f.ident = some nm → g.ident = some nm → f = g := by
  intro l
  induction l with
  | nil => intro _ f g nm hf; cases hf
  | cons a rest ih =>
    intro hnd f g nm hf hg hfn hgn
    rcases List.mem_cons.mp hf with rfl | hfr
    · rcases List.mem_cons.mp hg with rfl | hgr
      · rfl
      · exact absurd hgn (head_ident_notmem hnd hfn g hgr)
    · rcases List.mem_cons.mp hg with rfl | hgr
      · exact absurd hfn (head_ident_notmem hnd hgn f hfr)
      · exact ih (nodup_idents_tail hnd) hfr hgr hfn hgn

theorem array_plain_disjoint {l : List Field}
    (hnd : ((l.filterMap fun f => f.ident)).Nodup) {nm : Ident}
    (h1 : nm ∈ (l.filter fun f => isArrayTy f.ty).filterMap fun f => f.ident)
    (h2 : nm ∈ (l.filter fun f => !isArrayTy f.ty).filterMap fun f => f.ident) :
    False := by
  obtain ⟨f, hf, hfn⟩ := List.mem_filterMap.mp h1
  obtain ⟨g, hg, hgn⟩ := List.mem_filterMap.mp h2
  obtain ⟨hfl, hfp⟩ := List.mem_filter.mp hf
  obtain ⟨hgl, hgp⟩ := List.mem_filter.mp hg
  have := ident_unique_of_nodup hnd hfl hgl hfn hgn
  subst this
  rw [hfp] at hgp
  cases hgp

theorem bucket_nodup {l : List Field} (p : Field → Bool)
    (hnd : ((l.filterMap fun f => f.ident)).Nodup) :
    (((l.filter p).filterMap fun f => f.ident)).Nodup :=
  hnd.sublist ((List.filter_sublist l).filterMap _)

/-! Lemmas on the destination type lookup. -/

theorem destTyL_cons_pos {f : Field} (rest : List Field) {nm : Ident}
    (h : f.ident = some nm) : destTyL (f :: rest) nm = f.ty := by
  unfold destTyL
  rw [List.find?_cons_of_pos rest (by simp [h])]

theorem destTyL_cons_neg {f : Field} (rest : List Field) {nm : Ident}
    (h : ¬f.ident = some nm) : destTyL (f :: rest) nm = destTyL rest nm := by
  unfold destTyL
  rw [List.find?_cons_of_neg rest (by simp [h])]

theorem destTyL_map_stripOne (nm : Ident) :
    ∀ (l : List Field), destTyL (l.map stripOne) nm = destTyL l nm := by
  intro l
  induction l with
  | nil => rfl
  | cons f rest ih =>
    rw [List.map_cons]
    by_cases hf : f.ident = some nm
    · have hf2 : (stripOne f).ident = some nm := by rw [stripOne_ident]; exact hf
      rw [destTyL_cons_pos _ hf2, destTyL_cons_pos _ hf]
      exact stripOne_ty f
    · have hf2 : ¬(stripOne f).ident = some nm := by rw [stripOne_ident]; exact hf
      rw [destTyL_cons_neg _ hf2, destTyL_cons_neg _ hf]
      exact ih

theorem destTyL_eq_of_mem :
    ∀ {l : List Field}, ((l.filterMap fun f => f.ident)).Nodup →
      ∀ {fld : Field} {nm : Ident}, fld ∈ l → fld.ident = some nm →
      destTyL l nm = fld.ty := by
  intro l
  induction l with
  | nil => intro _ fld nm hf; cases hf
  | cons a rest ih =>
    intro hnd fld nm hmem hid
    by_cases ha : a.ident = some nm
    · have hfa : fld = a := by
        rcases List.mem_cons.mp hmem with rfl | hfr
        · rfl
        · exact absurd hid (head_ident_notmem hnd ha fld hfr)
      subst hfa
      exact destTyL_cons_pos rest ha
    · have hfr : fld ∈ rest := by
        rcases List.mem_cons.mp hmem with rfl | hfr
        · exact absurd hid ha
        · exact hfr
      rw [destTyL_cons_neg rest ha]
      exact ih (nodup_idents_tail hnd) hfr hid

/-! Inversion of the generation pipeline. -/

theorem zipWith_fst_snd {α γ : Type} (g : Ident → α → γ) :
    ∀ (l : List (Ident × α)),
      List.zipWith g (l.map Prod.fst) (l.map Prod.snd) = l.map fun p => g p.1 p.2 := by
  intro l
  induction l with
  | nil => rfl
  | cons p rest ih =>
    simp only [List.map_cons, List.zipWith_cons_cons, ih]

theorem fromParsedInput_ok_elim {hashOrder : List (Ident × Expr) → List (Ident × Expr)}
    {s : ItemStruct} {d : ImplData} (h : fromParsedInput hashOrder s = .ok d) :
    ∃ sf dm, extractDefaultsFromInput s.fields = .ok (sf, dm) ∧
      d = { rawInto := { s with fields := sf }
            into := s.ident
            generics := s.generics
            fields := ((s.fields.filter fun f => !isArrayTy f.ty).filterMap
                fun f => f.ident).filter
              fun i => !(decide (i ∈ (hashOrder dm).map Prod.fst))
            arrayFields := (s.fields.filter fun f => isArrayTy f.ty).filterMap
              fun f => f.ident
            defaultFields := (hashOrder dm).map Prod.fst
            defaultValues := (hashOrder dm).map Prod.snd } := by
  cases h2 : extractDefaultsFromInput s.fields with
  | error msg =>
    simp only [fromParsedInput, h2] at h
    exact Except.noConfusion h
  | ok p =>
    rcases p with ⟨sf, dm⟩
    simp only [fromParsedInput, h2, Except.ok.injEq] at h
    exact ⟨sf, dm, rfl, h.symm⟩

theorem constructFrom_ok_elim {hashOrder : List (Ident × Expr) → List (Ident × Expr)}
    {fp : RPath} {s : ItemStruct} {out : Output}
    (h : constructFromTokenstream hashOrder fp s = .ok out) :
    ∃ d, fromParsedInput hashOrder s = .ok d ∧
      out = { emitted := d.rawInto, source := fp, target := d.into,
              generics := d.generics, body := implBodyOf d } := by
  cases h2 : fromParsedInput hashOrder s with
  | error msg =>
    simp only [constructFromTokenstream, h2] at h
    exact Except.noConfusion h
  | ok d =>
    simp only [constructFromTokenstream, h2, Except.ok.injEq] at h
    exact ⟨d, rfl, h.symm⟩

/-! Shape lemmas for evaluated literals. -/

theorem evalLiteral_append (env : ConvEnv) (dTy : Ident → RustTy) (X Y : List Clause) :
    evalLiteral env dTy (X ++ Y) = evalLiteral env dTy X ++ evalLiteral env dTy Y :=
  List.map_append _ _ _

theorem evalLiteral_map_mk (env : ConvEnv) (dTy : Ident → RustTy) (mk : Ident → Clause)
    (hname : ∀ i, clauseName (mk i) = i) :
    ∀ (l : List Ident),
      evalLiteral env dTy (l.map mk) = l.map fun i => (i, evalClause env dTy (mk i)) := by
  intro l
  induction l with
  | nil => rfl
  | cons i rest ih =>
    simp only [List.map_cons, evalLiteral] at ih ⊢
    rw [hname i, ih]

theorem evalLiteral_defaults (env : ConvEnv) (dTy : Ident → RustTy) :
    ∀ (l : List (Ident × Expr)),
      evalLiteral env dTy (l.map fun p => Clause.defaultExpr p.1 p.2)
        = l.map fun p => (p.1, env.evalDefault p.2) := by
  intro l
  induction l with
  | nil => rfl
  | cons p rest ih =>
    simp only [List.map_cons, evalLiteral] at ih ⊢
    rw [ih]
    rfl

/-! C1. -/

/-- C1: the claim says a field that both has array type and carries a
default_value attribute is classified solely as defaulted, appears in
exactly one generated clause, and the array path is never generated for
it.  Evaluating the generator at such a field (exS1) shows the opposite:
the field lands in the array bucket and in the default bucket, the
emitted literal assigns it twice (a zeroed-array clause and a default
clause), and the overwrite loop also runs for it, so the claimed
single-clause invariant fails and the emitted impl is not valid Rust
(duplicate field in a struct literal, rustc error E0062). -/
theorem c1_array_default_double_clause :
    isOkE (constructFromTokenstream idOrder [("M1")] exS1) = true ∧
    exOut1.body = .twoPhase
      [.arrayZeroed ("data"), .defaultExpr ("data") ("zero_arr")] [("data")] ∧
    bodyClauseNames exOut1.body = [("data"), ("data")] ∧
    ¬(bodyClauseNames exOut1.body).Nodup := by
  refine ⟨rfl, rfl, rfl, ?_⟩
  decide

/-! C2. -/

/-- C2 counterexample: on exS2 the emitted declaration still carries the
argument-less auto_from_attr attribute of field a (remove_attrs is only
reached when a default_value was extracted), and the name-value doc
attribute of field b is gone (retain drops every non-list attribute),
contradicting both halves of the claim. -/
theorem c2_counterexample :
    isOkE (constructFromTokenstream idOrder [("M1")] exS2) = true ∧
    (exOut2.emitted.fields.map fun f => f.attrs) =
      [[Meta.list ("auto_from_attr") []],
       [Meta.list ("serde") [AttrArg.namedExpr ("rename") ("bb")]]] := by
  exact ⟨rfl, rfl⟩

/-- C2 amended: the re-emitted declaration keeps the name, generics and
field list of the input, where a field with an identifier and a
successfully extracted default_value keeps exactly its list-shaped
attributes whose path is not auto_from_attr (all its other attributes,
doc comments included, are dropped), and every other field keeps its
attribute list unchanged, so an auto_from_attr attribute without a
default_value argument survives into the emitted declaration. -/
theorem c2_attr_stripping (ho : List (Ident × Expr) → List (Ident × Expr))
    (fp : RPath) (s : ItemStruct) (out : Output)
    (hgen : constructFromTokenstream ho fp s = .ok out) :
    out.emitted.ident = s.ident ∧ out.emitted.generics = s.generics ∧
    out.emitted.fields = s.fields.map stripOne := by
  obtain ⟨d, hd, hout⟩ := constructFrom_ok_elim hgen
  obtain ⟨sf, dm, hex, hdd⟩ := fromParsedInput_ok_elim hd
  subst hout
  subst hdd
  exact ⟨rfl, rfl, extractGo_ok_fields _ _ hex⟩

/-- C2 witness: the amended statement evaluated on exS2. -/
theorem c2_attr_stripping_witness :
    constructFromTokenstream idOrder [("M1")] exS2 = .ok exOut2 ∧
    (exOut2.emitted.ident = exS2.ident ∧ exOut2.emitted.generics = exS2.generics ∧
      exOut2.emitted.fields = exS2.fields.map stripOne) :=
  ⟨rfl, c2_attr_stripping idOrder [("M1")] exS2 exOut2 rfl⟩

/-! C3. -/

/-- C3 counterexample: the reversed iteration order is a permutation of
the insertion order (every hash iteration order is), yet the two runs
emit different outputs on exS3, so the emitted output is not equal
across runs. -/
theorem c3_counterexample :
    (List.reverse exDefaults3).Perm exDefaults3 ∧
    exDefaults3 = [(("a"), ("1")), (("b"), ("2"))] ∧
    isOkE (constructFromTokenstream idOrder [("M1")] exS3) = true ∧
    isOkE (constructFromTokenstream revOrder [("M1")] exS3) = true ∧
    okOr (constructFromTokenstream revOrder [("M1")] exS3)
      ≠ okOr (constructFromTokenstream idOrder [("M1")] exS3) := by
  refine ⟨List.reverse_perm _, rfl, rfl, rfl, ?_⟩
  decide

/-- C3 amended: across two runs (any two hash iteration orders), the
re-emitted declaration and the plain and array buckets are identical and
in declaration order, and the defaulted bucket holds the same
name-expression pairs up to order; only the order of the default
clauses, hence the textual output, may differ. -/
theorem c3_buckets_deterministic (o1 o2 : List (Ident × Expr) → List (Ident × Expr))
    (s : ItemStruct) (d1 d2 : ImplData)
    (h1 : ∀ l : List (Ident × Expr), (o1 l).Perm l)
    (h2 : ∀ l : List (Ident × Expr), (o2 l).Perm l)
    (hg1 : fromParsedInput o1 s = .ok d1)
    (hg2 : fromParsedInput o2 s = .ok d2) :
    d1.rawInto = d2.rawInto ∧ d1.into = d2.into ∧ d1.generics = d2.generics ∧
    d1.fields = d2.fields ∧ d1.arrayFields = d2.arrayFields ∧
    (d1.defaultFields.zip d1.defaultValues).Perm
      (d2.defaultFields.zip d2.defaultValues) := by
  obtain ⟨sf1, dm1, hex1, hdd1⟩ := fromParsedInput_ok_elim hg1
  obtain ⟨sf2, dm2, hex2, hdd2⟩ := fromParsedInput_ok_elim hg2
  rw [hex1] at hex2
  obtain ⟨hsf, hdm⟩ := Prod.mk.injEq .. ▸ Except.ok.inj hex2
  subst hsf
  subst hdm
  subst hdd1
  subst hdd2
  have hzip : ∀ (l : List (Ident × Expr)),
      (l.map Prod.fst).zip (l.map Prod.snd) = l := by
    intro l
    rw [List.zip, zipWith_fst_snd]
    simp
  refine ⟨rfl, rfl, rfl, ?_, rfl, ?_⟩
  · apply List.filter_congr
    intro i _
    have hmem : i ∈ (o1 dm1).map Prod.fst ↔ i ∈ (o2 dm1).map Prod.fst := by
      rw [((h1 dm1).map Prod.fst).mem_iff, ((h2 dm1).map Prod.fst).mem_iff]
    by_cases hi : i ∈ (o1 dm1).map Prod.fst
    · rw [decide_eq_true hi, decide_eq_true (hmem.mp hi)]
    · rw [decide_eq_false hi, decide_eq_false (fun hh => hi (hmem.mpr hh))]
  · rw [hzip, hzip]
    exact (h1 dm1).trans (h2 dm1).symm

/-- C3 witness: the amended statement evaluated on exS3 with the
insertion order and the reversed order. -/
theorem c3_buckets_deterministic_witness :
    exD3a.rawInto = exD3b.rawInto ∧ exD3a.into = exD3b.into ∧
    exD3a.generics = exD3b.generics ∧ exD3a.fields = exD3b.fields ∧
    exD3a.arrayFields = exD3b.arrayFields ∧
    (exD3a.defaultFields.zip exD3a.defaultValues).Perm
      (exD3b.defaultFields.zip exD3b.defaultValues) :=
  c3_buckets_deterministic idOrder revOrder exS3 exD3a exD3b
    (fun l => List.Perm.refl l) (fun l => List.reverse_perm l) rfl rfl

/-! C8. -/

/-- C8: the namespace entry point with namespace path P on a declaration
with identifier I produces exactly the output of the direct entry point
supplied with the source path P::I. -/
theorem c8_ns_entry_point (ho : List (Ident × Expr) → List (Ident × Expr))
    (ns : RPath) (s : ItemStruct) :
    autoFromNs ho ns s = autoFrom ho (ns ++ [s.ident]) s := rfl

/-! C9. -/

/-- C9: a malformed generator attribute anywhere in the field list makes
the whole generation return an error: the single Except result carries
either both the declaration and the impl (ok) or nothing (error), so no
partial output can be produced. -/
theorem c9_malformed_attr_fails (ho : List (Ident × Expr) → List (Ident × Expr))
    (fp : RPath) (s : ItemStruct) (f : Field) (hmem : f ∈ s.fields)
    (hbad : isOkE (autoFromAttrFromField f.attrs) = false) :
    ∃ msg, constructFromTokenstream ho fp s = .error msg := by
  obtain ⟨msg, hr⟩ := extractGo_error_of_mem s.fields [] hmem hbad
  refine ⟨msg, ?_⟩
  simp only [constructFromTokenstream, fromParsedInput, extractDefaultsFromInput, hr]

/-- C9 witness: the failing generation evaluated on exS9. -/
theorem c9_malformed_attr_fails_witness :
    exF9 ∈ exS9.fields ∧ isOkE (autoFromAttrFromField exF9.attrs) = false ∧
    isOkE (constructFromTokenstream idOrder [("M1")] exS9) = false := by
  refine ⟨by decide, rfl, ?_⟩
  obtain ⟨msg, hm⟩ := c9_malformed_attr_fails idOrder [("M1")] exS9 exF9 (by decide) rfl
  rw [hm]
  rfl

/-! C10. -/

theorem filterMap_ident_skip_unnamed (p : Field → Bool) :
    ∀ (l : List Field),
      (((l.filter fun f => f.ident.isSome).filter p).filterMap fun f => f.ident)
        = ((l.filter p).filterMap fun f => f.ident) := by
  intro l
  rw [List.filter_filter]
  induction l with
  | nil => rfl
  | cons f rest ih =>
    cases hi : f.ident with
    | none =>
      cases hp : p f with
      | true => simp [List.filter_cons, hi, hp, List.filterMap_cons_none hi, ih]
      | false => simp [List.filter_cons, hi, hp, ih]
    | some i =>
      cases hp : p f with
      | true => simp [List.filter_cons, hi, hp, List.filterMap_cons_some hi, ih]
      | false => simp [List.filter_cons, hi, hp, ih]

theorem implBodyOf_congr {d1 d2 : ImplData} (hf : d1.fields = d2.fields)
    (ha : d1.arrayFields = d2.arrayFields) (hdf : d1.defaultFields = d2.defaultFields)
    (hdv : d1.defaultValues = d2.defaultValues) : implBodyOf d1 = implBodyOf d2 := by
  unfold implBodyOf directClauses twoPhaseClauses mkDefaultClauses
  rw [hf, ha, hdf, hdv]

/-- C10: on a struct with identifier-less (tuple-style) fields and
otherwise well-formed attributes, the classifier succeeds without any
diagnostic and produces exactly the buckets and the impl body of the
struct restricted to its named fields: unnamed fields are silently
omitted from every generated-assignment clause. -/
theorem c10_unnamed_silently_dropped (ho : List (Ident × Expr) → List (Ident × Expr))
    (s : ItemStruct)
    (hall : ∀ f ∈ s.fields, isOkE (autoFromAttrFromField f.attrs) = true) :
    ∃ d d2, fromParsedInput ho s = .ok d ∧ fromParsedInput ho (namedOnly s) = .ok d2 ∧
      d.fields = d2.fields ∧ d.arrayFields = d2.arrayFields ∧
      d.defaultFields = d2.defaultFields ∧ d.defaultValues = d2.defaultValues ∧
      implBodyOf d = implBodyOf d2 := by
  obtain ⟨fl2, fl3, dm, hr1, hr2⟩ := extractGo_skip_unnamed s.fields [] hall
  have hg1 : fromParsedInput ho s = .ok
      { rawInto := { s with fields := fl2 }
        into := s.ident
        generics := s.generics
        fields := ((s.fields.filter fun f => !isArrayTy f.ty).filterMap
            fun f => f.ident).filter
          fun i => !(decide (i ∈ (ho dm).map Prod.fst))
        arrayFields := (s.fields.filter fun f => isArrayTy f.ty).filterMap fun f => f.ident
        defaultFields := (ho dm).map Prod.fst
        defaultValues := (ho dm).map Prod.snd } := by
    simp only [fromParsedInput, extractDefaultsFromInput, hr1]
  have hg2 : fromParsedInput ho (namedOnly s) = .ok
      { rawInto := { s with fields := fl3 }
        into := s.ident
        generics := s.generics
        fields := (((namedOnly s).fields.filter fun f => !isArrayTy f.ty).filterMap
            fun f => f.ident).filter
          fun i => !(decide (i ∈ (ho dm).map Prod.fst))
        arrayFields := ((namedOnly s).fields.filter fun f => isArrayTy f.ty).filterMap
          fun f => f.ident
        defaultFields := (ho dm).map Prod.fst
        defaultValues := (ho dm).map Prod.snd } := by
    simp only [fromParsedInput, extractDefaultsFromInput, namedOnly, hr2]
  refine ⟨_, _, hg1, hg2, ?_, ?_, rfl, rfl, ?_⟩
  · show (((s.fields.filter fun f => !isArrayTy f.ty).filterMap fun f => f.ident).filter
        fun i => !(decide (i ∈ (ho dm).map Prod.fst)))
      = ((((namedOnly s).fields.filter fun f => !isArrayTy f.ty).filterMap
          fun f => f.ident).filter
        fun i => !(decide (i ∈ (ho dm).map Prod.fst)))
    rw [show (namedOnly s).fields = s.fields.filter (fun f => f.ident.isSome) from rfl,
      filterMap_ident_skip_unnamed]
  · show ((s.fields.filter fun f => isArrayTy f.ty).filterMap fun f => f.ident)
      = (((namedOnly s).fields.filter fun f => isArrayTy f.ty).filterMap fun f => f.ident)
    rw [show (namedOnly s).fields = s.fields.filter (fun f => f.ident.isSome) from rfl,
      filterMap_ident_skip_unnamed]
  · apply implBodyOf_congr
    · show (((s.fields.filter fun f => !isArrayTy f.ty).filterMap fun f => f.ident).filter
          fun i => !(decide (i ∈ (ho dm).map Prod.fst)))
        = ((((namedOnly s).fields.filter fun f => !isArrayTy f.ty).filterMap
            fun f => f.ident).filter
          fun i => !(decide (i ∈ (ho dm).map Prod.fst)))
      rw [show (namedOnly s).fields = s.fields.filter (fun f => f.ident.isSome) from rfl,
        filterMap_ident_skip_unnamed]
    · show ((s.fields.filter fun f => isArrayTy f.ty).filterMap fun f => f.ident)
        = (((namedOnly s).fields.filter fun f => isArrayTy f.ty).filterMap fun f => f.ident)
      rw [show (namedOnly s).fields = s.fields.filter (fun f => f.ident.isSome) from rfl,
        filterMap_ident_skip_unnamed]
    · rfl
    · rfl

/-- C10 witness: the statement evaluated on exS10. -/
theorem c10_unnamed_silently_dropped_witness :
    (∀ f ∈ exS10.fields, isOkE (autoFromAttrFromField f.attrs) = true) ∧
    (∃ d d2, fromParsedInput idOrder exS10 = .ok d ∧
      fromParsedInput idOrder (namedOnly exS10) = .ok d2 ∧
      d.fields = d2.fields ∧ d.arrayFields = d2.arrayFields ∧
      d.defaultFields = d2.defaultFields ∧ d.defaultValues = d2.defaultValues ∧
      implBodyOf d = implBodyOf d2) :=
  ⟨by decide, c10_unnamed_silently_dropped idOrder exS10 (by decide)⟩

/-! Shared facts about a successful classifier run. -/

theorem destTy_emitted {ho : List (Ident × Expr) → List (Ident × Expr)} {s : ItemStruct}
    {d : ImplData} (h : fromParsedInput ho s = .ok d) (nm : Ident) :
    destTyL d.rawInto.fields nm = destTyL s.fields nm := by
  obtain ⟨sf, dm, hex, hdd⟩ := fromParsedInput_ok_elim h
  subst hdd
  show destTyL sf nm = destTyL s.fields nm
  rw [extractGo_ok_fields _ _ hex, destTyL_map_stripOne]

theorem mem_arrayFields {ho : List (Ident × Expr) → List (Ident × Expr)} {s : ItemStruct}
    {d : ImplData} (h : fromParsedInput ho s = .ok d) {fld : Field} {nm : Ident}
    (hmem : fld ∈ s.fields) (hid : fld.ident = some nm)
    (hty : isArrayTy fld.ty = true) : nm ∈ d.arrayFields := by
  obtain ⟨sf, dm, hex, hdd⟩ := fromParsedInput_ok_elim h
  subst hdd
  exact List.mem_filterMap.mpr ⟨fld, List.mem_filter.mpr ⟨hmem, hty⟩, hid⟩

theorem arrayFields_nodup {ho : List (Ident × Expr) → List (Ident × Expr)} {s : ItemStruct}
    {d : ImplData} (h : fromParsedInput ho s = .ok d)
    (hnd : ((s.fields.filterMap fun f => f.ident)).Nodup) : d.arrayFields.Nodup := by
  obtain ⟨sf, dm, hex, hdd⟩ := fromParsedInput_ok_elim h
  subst hdd
  exact bucket_nodup _ hnd

theorem arrayFields_disj_fields {ho : List (Ident × Expr) → List (Ident × Expr)}
    {s : ItemStruct} {d : ImplData} (h : fromParsedInput ho s = .ok d)
    (hnd : ((s.fields.filterMap fun f => f.ident)).Nodup) :
    ∀ g ∈ d.arrayFields, g ∉ d.fields := by
  obtain ⟨sf, dm, hex, hdd⟩ := fromParsedInput_ok_elim h
  subst hdd
  intro g hg hgf
  exact array_plain_disjoint hnd hg (List.mem_filter.mp hgf).1

theorem nonarray_notmem_arrayFields {ho : List (Ident × Expr) → List (Ident × Expr)}
    {s : ItemStruct} {d : ImplData} (h : fromParsedInput ho s = .ok d)
    (hnd : ((s.fields.filterMap fun f => f.ident)).Nodup) {fld : Field} {nm : Ident}
    (hmem : fld ∈ s.fields) (hid : fld.ident = some nm)
    (hty : isArrayTy fld.ty = false) : nm ∉ d.arrayFields := by
  obtain ⟨sf, dm, hex, hdd⟩ := fromParsedInput_ok_elim h
  subst hdd
  intro hin
  obtain ⟨g, hgf, hgn⟩ := List.mem_filterMap.mp hin
  obtain ⟨hgl, hgp⟩ := List.mem_filter.mp hgf
  have hge := ident_unique_of_nodup hnd hgl hmem hgn hid
  subst hge
  rw [hty] at hgp
  cases hgp

theorem twoPhase_literal_shape (env : ConvEnv) (dTy : Ident → RustTy) (d : ImplData) :
    evalLiteral env dTy (twoPhaseClauses d)
      = (d.fields.map fun i => (i, evalClause env dTy (Clause.plainConv i)))
        ++ ((d.arrayFields.map fun g => (g, zeroVal (dTy g)))
          ++ evalLiteral env dTy (mkDefaultClauses d)) := by
  unfold twoPhaseClauses
  rw [List.append_assoc, evalLiteral_append, evalLiteral_append,
    evalLiteral_map_mk env dTy Clause.plainConv (fun i => rfl),
    evalLiteral_map_mk env dTy Clause.arrayZeroed (fun i => rfl)]
  rfl

theorem direct_literal_shape (env : ConvEnv) (dTy : Ident → RustTy) (d : ImplData) :
    evalLiteral env dTy (directClauses d)
      = (d.fields.map fun i => (i, evalClause env dTy (Clause.plainConv i)))
        ++ ((d.arrayFields.map fun g => (g, evalClause env dTy (Clause.arrayFromFn g)))
          ++ evalLiteral env dTy (mkDefaultClauses d)) := by
  unfold directClauses
  rw [List.append_assoc, evalLiteral_append, evalLiteral_append,
    evalLiteral_map_mk env dTy Clause.plainConv (fun i => rfl),
    evalLiteral_map_mk env dTy Clause.arrayFromFn (fun i => rfl)]

theorem run_twoPhase (env : ConvEnv) (dTy : Ident → RustTy) (d : ImplData)
    (hndarr : d.arrayFields.Nodup) (hdisj : ∀ g ∈ d.arrayFields, g ∉ d.fields) :
    runBody env dTy (.twoPhase (twoPhaseClauses d) d.arrayFields)
      = (if d.arrayFields.all (lengthOkB env dTy) then
          some ((d.fields.map fun i => (i, evalClause env dTy (Clause.plainConv i)))
            ++ ((d.arrayFields.map fun g => (g, newVal env dTy g))
              ++ evalLiteral env dTy (mkDefaultClauses d)))
        else none) := by
  show overwriteAll env dTy d.arrayFields (some (evalLiteral env dTy (twoPhaseClauses d))) = _
  rw [twoPhase_literal_shape]
  exact overwriteAll_sections env dTy d.arrayFields hndarr _ _
    (fun g hg => alookup_map_pair_none _ _ (hdisj g hg))

/-! C4. -/

/-- C4: for a fixed-size array field of length n without a default
attribute, when the generated conversion produces a value at all, the
field holds exactly the elementwise conversion of the source array and
the source length equals n; and when the source array length differs
from n, the generated routine aborts (the assert_eq fails) and produces
no value. -/
theorem c4_array_field_conversion (ho : List (Ident × Expr) → List (Ident × Expr))
    (fp : RPath) (s : ItemStruct) (env : ConvEnv) (out : Output) (fld : Field)
    (nm : Ident) (e : RustTy) (n : Nat) (vs : List Value)
    (hnd : ((s.fields.filterMap fun f => f.ident)).Nodup)
    (hmem : fld ∈ s.fields) (hid : fld.ident = some nm)
    (hty : fld.ty = .array e n)
    (_hparse : autoFromAttrFromField fld.attrs = .ok none)
    (hgen : constructFromTokenstream ho fp s = .ok out)
    (hsrc : env.srcVal nm = .arr vs) :
    (vs.length ≠ n → runGenerated env out = none) ∧
    (∀ res, runGenerated env out = some res →
      vs.length = n ∧
      alookup res nm = some (.arr (vs.map (env.conv (elemTy (env.srcTy nm)) e)))) := by
  obtain ⟨d, hd, hout⟩ := constructFrom_ok_elim hgen
  subst hout
  have hisarr : isArrayTy fld.ty = true := by rw [hty]; rfl
  have hin : nm ∈ d.arrayFields := mem_arrayFields hd hmem hid hisarr
  have harrne : d.arrayFields ≠ [] := List.ne_nil_of_mem hin
  have hbody : implBodyOf d = .twoPhase (twoPhaseClauses d) d.arrayFields := by
    unfold implBodyOf
    rw [if_neg harrne]
  have hdTy : destTyOf d.rawInto nm = .array e n := by
    show destTyL d.rawInto.fields nm = _
    rw [destTy_emitted hd nm, destTyL_eq_of_mem hnd hmem hid, hty]
  have hrun : runGenerated env
      { emitted := d.rawInto, source := fp, target := d.into,
        generics := d.generics, body := implBodyOf d }
      = (if d.arrayFields.all (lengthOkB env (destTyOf d.rawInto)) then
          some ((d.fields.map fun i =>
              (i, evalClause env (destTyOf d.rawInto) (Clause.plainConv i)))
            ++ ((d.arrayFields.map fun g => (g, newVal env (destTyOf d.rawInto) g))
              ++ evalLiteral env (destTyOf d.rawInto) (mkDefaultClauses d)))
        else none) := by
    show runBody env (destTyOf d.rawInto) (implBodyOf d) = _
    rw [hbody]
    exact run_twoPhase env (destTyOf d.rawInto) d (arrayFields_nodup hd hnd)
      (arrayFields_disj_fields hd hnd)
  have hlenok : d.arrayFields.all (lengthOkB env (destTyOf d.rawInto)) = true →
      vs.length = n := by
    intro hall
    have h1 := List.all_eq_true.mp hall nm hin
    unfold lengthOkB at h1
    rw [hdTy, hsrc, vlen_zeroVal_array] at h1
    simp only [vlen] at h1
    exact (beq_iff_eq.mp h1).symm
  constructor
  · intro hne
    rw [hrun, if_neg (fun hall => hne (hlenok hall))]
  · intro res hres
    rw [hrun] at hres
    by_cases hall : d.arrayFields.all (lengthOkB env (destTyOf d.rawInto)) = true
    · rw [if_pos hall] at hres
      have hlen := hlenok hall
      refine ⟨hlen, ?_⟩
      have hres2 := (Option.some.inj hres).symm
      subst hres2
      rw [alookup_append_of_none _ _
        (alookup_map_pair_none _ _ (arrayFields_disj_fields hd hnd nm hin))]
      rw [alookup_append_of_some _ (alookup_map_pair d.arrayFields _ hin)]
      unfold newVal
      rw [hdTy, hsrc]
      rw [overwriteArr_zero_array _ hlen]
      rfl
    · rw [if_neg hall] at hres
      cases hres

/-- C4 witness: the statement evaluated on exS4 under exEnv4, where the
lengths match and the source holds [1, 2]. -/
theorem c4_array_field_conversion_witness :
    constructFromTokenstream idOrder [("M1")] exS4 = .ok exOut4 ∧
    runGenerated exEnv4 exOut4 = some exRes4 ∧
    ((2 : Nat) ≠ 2 → runGenerated exEnv4 exOut4 = none) ∧
    ([Value.prim 1, Value.prim 2].length = 2 ∧
      alookup exRes4 ("data") = some (.arr ([Value.prim 1, Value.prim 2].map
        (exEnv4.conv (elemTy (exEnv4.srcTy ("data"))) (.other ("f64")))))) := by
  refine ⟨rfl, rfl, ?_, ?_⟩
  · exact (c4_array_field_conversion idOrder [("M1")] exS4 exEnv4 exOut4 exFl4 ("data")
      (.other ("f64")) 2 [Value.prim 1, Value.prim 2] (by decide) (by decide) rfl rfl rfl
      rfl rfl).1
  · exact (c4_array_field_conversion idOrder [("M1")] exS4 exEnv4 exOut4 exFl4 ("data")
      (.other ("f64")) 2 [Value.prim 1, Value.prim 2] (by decide) (by decide) rfl rfl rfl
      rfl rfl).2 exRes4 rfl

/-! C6. -/

/-- C6 counterexample: on a field that is both array-typed and
defaulted (exS6), the generated routine does not give the field the
value of the default expression: the emitted literal holds a zeroed
clause before the default clause and the overwrite loop then stores the
converted source elements, so the resulting field equals the converted
source array [1, 2] and not the default value 7.  (In actual Rust the
emitted impl is rejected outright, E0062: the literal names the field
twice; either way the claim fails for such fields.) -/
theorem c6_counterexample :
    isOkE (constructFromTokenstream idOrder [("M1")] exS6) = true ∧
    runGenerated exEnv6 exOut6 = some exRes6 ∧
    exEnv6.evalDefault ("defarr") = Value.prim 7 ∧
    alookup exRes6 ("data") = some (Value.arr [Value.prim 1, Value.prim 2]) ∧
    alookup exRes6 ("data") ≠ some (exEnv6.evalDefault ("defarr")) := by
  refine ⟨rfl, rfl, rfl, rfl, ?_⟩
  intro h
  rw [show alookup exRes6 ("data") = some (Value.arr [Value.prim 1, Value.prim 2]) from rfl]
    at h
  exact Value.noConfusion (Option.some.inj h)

/-- C6 amended: for every field with an identifier that is not
array-typed and carries a default_value expression, whenever the
generated conversion produces a value, that field of the result equals
the evaluated default expression, for every source value (the source is
never read for it).  Array-typed defaulted fields are excluded: for
them the code also emits the array path and the final value is the
converted source array, and the duplicated literal clause makes rustc
reject the emitted impl. -/
theorem c6_default_precedence (ho : List (Ident × Expr) → List (Ident × Expr))
    (fp : RPath) (s : ItemStruct) (env : ConvEnv) (out : Output) (fld : Field)
    (nm : Ident) (e : Expr)
    (horder : ∀ l : List (Ident × Expr), (ho l).Perm l)
    (hnd : ((s.fields.filterMap fun f => f.ident)).Nodup)
    (hmem : fld ∈ s.fields) (hid : fld.ident = some nm)
    (hnotarr : isArrayTy fld.ty = false)
    (hparse : autoFromAttrFromField fld.attrs = .ok (some e))
    (hgen : constructFromTokenstream ho fp s = .ok out) :
    ∀ res, runGenerated env out = some res →
      alookup res nm = some (env.evalDefault e) := by
  obtain ⟨d, hd, hout⟩ := constructFrom_ok_elim hgen
  subst hout
  obtain ⟨sf, dm, hex, hdd⟩ := fromParsedInput_ok_elim hd
  have hdf : d.defaultFields = (ho dm).map Prod.fst := by rw [hdd]
  have hdv : d.defaultValues = (ho dm).map Prod.snd := by rw [hdd]
  have hfieldsd : d.fields = ((s.fields.filter fun f => !isArrayTy f.ty).filterMap
      fun f => f.ident).filter
    fun i => !(decide (i ∈ (ho dm).map Prod.fst)) := by rw [hdd]
  have hmap : alookup dm nm = some e :=
    extractGo_alookup_self s.fields [] hex hmem hid hparse hnd
  have hmemdm : (nm, e) ∈ dm := mem_of_alookup_eq_some hmap
  have hmemho : (nm, e) ∈ ho dm := ((horder dm).mem_iff).mpr hmemdm
  have hDF : nm ∈ (ho dm).map Prod.fst := List.mem_map.mpr ⟨(nm, e), hmemho, rfl⟩
  have hkeysnd : (dm.map Prod.fst).Nodup :=
    extractGo_keys_nodup s.fields [] (by simp) hex
  have hkeysho : ((ho dm).map Prod.fst).Nodup :=
    (((horder dm).map Prod.fst).nodup_iff).mpr hkeysnd
  have hnotfields : nm ∉ d.fields := by
    rw [hfieldsd]
    intro hmf
    have h2 := (List.mem_filter.mp hmf).2
    rw [Bool.not_eq_true'] at h2
    exact (decide_eq_false_iff_not.mp h2) hDF
  have hnotarrs : nm ∉ d.arrayFields :=
    nonarray_notmem_arrayFields hd hnd hmem hid hnotarr
  have hF : alookup (evalLiteral env (destTyOf d.rawInto) (mkDefaultClauses d)) nm
      = some (env.evalDefault e) := by
    unfold mkDefaultClauses
    rw [hdf, hdv, zipWith_fst_snd, evalLiteral_defaults]
    exact alookup_map_of_mem_nodup env.evalDefault hkeysho hmemho
  intro res hres
  by_cases harr : d.arrayFields = []
  · have hbody : implBodyOf d = .direct (directClauses d) := by
      unfold implBodyOf
      rw [if_pos harr]
    have hres2 : some (evalLiteral env (destTyOf d.rawInto) (directClauses d)) = some res := by
      rw [← hres]
      show _ = runBody env (destTyOf d.rawInto) (implBodyOf d)
      rw [hbody]
      rfl
    have hres3 := (Option.some.inj hres2).symm
    subst hres3
    rw [direct_literal_shape]
    rw [alookup_append_of_none _ _ (alookup_map_pair_none _ _ hnotfields)]
    rw [harr]
    simp only [List.map_nil, List.nil_append]
    exact hF
  · have hbody : implBodyOf d = .twoPhase (twoPhaseClauses d) d.arrayFields := by
      unfold implBodyOf
      rw [if_neg harr]
    have hres2 : overwriteAll env (destTyOf d.rawInto) d.arrayFields
        (some (evalLiteral env (destTyOf d.rawInto) (twoPhaseClauses d))) = some res := by
      rw [← hres]
      show _ = runBody env (destTyOf d.rawInto) (implBodyOf d)
      rw [hbody]
      rfl
    rw [overwriteAll_alookup_of_notmem env (destTyOf d.rawInto) d.arrayFields hnotarrs hres2]
    rw [twoPhase_literal_shape]
    rw [alookup_append_of_none _ _ (alookup_map_pair_none _ _ hnotfields)]
    rw [alookup_append_of_none _ _ (alookup_map_pair_none _ _ hnotarrs)]
    exact hF

/-- C6 witness: the amended statement evaluated on exS6w, a defaulted
scalar field whose default expression evaluates to 7 while the source
holds 0. -/
theorem c6_default_precedence_witness :
    runGenerated exEnv6w exOut6w = some exRes6w ∧
    alookup exRes6w ("x") = some (exEnv6w.evalDefault ("d7")) := by
  refine ⟨rfl, ?_⟩
  exact c6_default_precedence idOrder [("M1")] exS6w exEnv6w exOut6w
    ⟨some ("x"), .other ("i32"),
      [.list ("auto_from_attr") [.namedExpr ("default_value") ("d7")]]⟩
    ("x") ("d7") (fun l => List.Perm.refl l) (by decide) (by decide) rfl rfl rfl rfl
    exRes6w rfl

/-! C7. -/

/-- C7: when the destination has at least one array field and the source
arrays have the lengths of the destination arrays, the emitted two-phase
routine (one literal with zeroed array placeholders, then
assert-and-overwrite per array field, a choice made once per routine) is
observationally equivalent to the direct aggregate construction that
maps each array element through the per-element conversion (the
array_fields.is_empty() branch shape of the same emitter), and it
produces a value. -/
theorem c7_strategy_equivalence (ho : List (Ident × Expr) → List (Ident × Expr))
    (fp : RPath) (s : ItemStruct) (env : ConvEnv) (out : Output) (d : ImplData)
    (hnd : ((s.fields.filterMap fun f => f.ident)).Nodup)
    (hd : fromParsedInput ho s = .ok d)
    (hgen : constructFromTokenstream ho fp s = .ok out)
    (harrne : d.arrayFields ≠ [])
    (hlens : ∀ g ∈ d.arrayFields, ∃ ee nn vsg, destTyOf s g = .array ee nn ∧
      env.srcVal g = .arr vsg ∧ vsg.length = nn) :
    out.body = .twoPhase (twoPhaseClauses d) d.arrayFields ∧
    runGenerated env out
      = runBody env (destTyOf out.emitted) (.direct (directClauses d)) ∧
    (runGenerated env out).isSome = true := by
  obtain ⟨d2, hd2, hout⟩ := constructFrom_ok_elim hgen
  rw [hd] at hd2
  have hdd2 : d = d2 := Except.ok.inj hd2
  subst hdd2
  subst hout
  have hbody : implBodyOf d = .twoPhase (twoPhaseClauses d) d.arrayFields := by
    unfold implBodyOf
    rw [if_neg harrne]
  have hdty : ∀ g : Ident, destTyOf d.rawInto g = destTyOf s g := fun g =>
    destTy_emitted hd g
  have hall : d.arrayFields.all (lengthOkB env (destTyOf d.rawInto)) = true := by
    apply List.all_eq_true.mpr
    intro g hg
    obtain ⟨ee, nn, vsg, h1, h2, h3⟩ := hlens g hg
    unfold lengthOkB
    rw [hdty g, h1, h2, vlen_zeroVal_array]
    simp [vlen, h3]
  have hpt : ∀ g ∈ d.arrayFields,
      newVal env (destTyOf d.rawInto) g
        = evalClause env (destTyOf d.rawInto) (Clause.arrayFromFn g) := by
    intro g hg
    obtain ⟨ee, nn, vsg, h1, h2, h3⟩ := hlens g hg
    have hL : newVal env (destTyOf d.rawInto) g
        = .arr (vsg.map (env.conv (elemTy (env.srcTy g)) ee)) := by
      unfold newVal
      rw [hdty g, h1, h2, overwriteArr_zero_array _ h3]
      rfl
    have hR : evalClause env (destTyOf d.rawInto) (Clause.arrayFromFn g)
        = .arr (vsg.map (env.conv (elemTy (env.srcTy g)) ee)) := by
      simp only [evalClause, hdty g, h1]
      exact fromFnVal_eq_map env ee h2 h3
    rw [hL, hR]
  have hrun : runGenerated env
      { emitted := d.rawInto, source := fp, target := d.into,
        generics := d.generics, body := implBodyOf d }
      = some ((d.fields.map fun i =>
          (i, evalClause env (destTyOf d.rawInto) (Clause.plainConv i)))
        ++ ((d.arrayFields.map fun g => (g, newVal env (destTyOf d.rawInto) g))
          ++ evalLiteral env (destTyOf d.rawInto) (mkDefaultClauses d))) := by
    show runBody env (destTyOf d.rawInto) (implBodyOf d) = _
    rw [hbody, run_twoPhase env (destTyOf d.rawInto) d (arrayFields_nodup hd hnd)
      (arrayFields_disj_fields hd hnd), if_pos hall]
  refine ⟨hbody, ?_, ?_⟩
  · rw [hrun]
    show _ = some (evalLiteral env (destTyOf d.rawInto) (directClauses d))
    rw [direct_literal_shape]
    have hmap : (d.arrayFields.map fun g => (g, newVal env (destTyOf d.rawInto) g))
        = d.arrayFields.map fun g =>
            (g, evalClause env (destTyOf d.rawInto) (Clause.arrayFromFn g)) :=
      List.map_congr_left (fun g hg => by rw [hpt g hg])
    rw [hmap]
  · rw [hrun]
    rfl

/-- C7 witness: the statement evaluated on exS4 (one array field of
length 2) under exEnv4 (matching source lengths). -/
theorem c7_strategy_equivalence_witness :
    exOut4.body = .twoPhase (twoPhaseClauses exD4) exD4.arrayFields ∧
    runGenerated exEnv4 exOut4
      = runBody exEnv4 (destTyOf exOut4.emitted) (.direct (directClauses exD4)) ∧
    (runGenerated exEnv4 exOut4).isSome = true := by
  refine c7_strategy_equivalence idOrder [("M1")] exS4 exEnv4 exOut4 exD4
    (by decide) rfl rfl (by decide) ?_
  intro g hg
  have hg2 : g = ("data") := by
    have harr : exD4.arrayFields = [("data")] := rfl
    rw [harr] at hg
    exact List.mem_singleton.mp hg
  subst hg2
  exact ⟨.other ("f64"), 2, [Value.prim 1, Value.prim 2], rfl, rfl, rfl⟩

/-! C5. -/

/-- C5 counterexample: exS5 is a destination whose single field id has
the same name and type as the source field (the premise of the claim),
but it carries a default_value attribute; the conversion stores the
evaluated default -1 and not the source value 0, so the claim as stated
fails for destinations with defaulted fields. -/
theorem c5_counterexample :
    isOkE (constructFromTokenstream idOrder [("M1")] exS5) = true ∧
    exEnv5.srcTy ("id") = .other ("i32") ∧
    runGenerated exEnv5 exOut5 = some exRes5 ∧
    exEnv5.srcVal ("id") = Value.prim 0 ∧
    alookup exRes5 ("id") = some (Value.prim (-1)) ∧
    alookup exRes5 ("id") ≠ some (exEnv5.srcVal ("id")) := by
  refine ⟨rfl, rfl, rfl, rfl, rfl, ?_⟩
  intro h
  rw [show alookup exRes5 ("id") = some (Value.prim (-1)) from rfl] at h
  exact absurd (Value.prim.inj (Option.some.inj h)) (by decide)

/-- C5 amended: for every destination whose fields are a subset of the
source fields with identical names and types and with NO default_value
attributes, and every well-shaped source value, the generated conversion
produces a value whose every named field equals the same-named source
field (the generic conversion at identical types is the identity). -/
theorem c5_round_trip (ho : List (Ident × Expr) → List (Ident × Expr))
    (fp : RPath) (s : ItemStruct) (env : ConvEnv) (out : Output)
    (horder : ∀ l : List (Ident × Expr), (ho l).Perm l)
    (hnd : ((s.fields.filterMap fun f => f.ident)).Nodup)
    (hnodef : ∀ f ∈ s.fields, autoFromAttrFromField f.attrs = .ok none)
    (htys : ∀ fld ∈ s.fields, ∀ nm : Ident, fld.ident = some nm →
      env.srcTy nm = fld.ty)
    (hconv : ∀ (t : RustTy) (v : Value), env.conv t t v = v)
    (hvals : ∀ fld ∈ s.fields, ∀ nm : Ident, fld.ident = some nm →
      ∀ (ee : RustTy) (nn : Nat), fld.ty = .array ee nn →
      ∃ vsg, env.srcVal nm = .arr vsg ∧ vsg.length = nn)
    (hgen : constructFromTokenstream ho fp s = .ok out) :
    ∃ res, runGenerated env out = some res ∧
      ∀ fld ∈ s.fields, ∀ nm : Ident, fld.ident = some nm →
        alookup res nm = some (env.srcVal nm) := by
  obtain ⟨d, hd, hout⟩ := constructFrom_ok_elim hgen
  subst hout
  obtain ⟨sf, dm, hex, hdd⟩ := fromParsedInput_ok_elim hd
  have hdm : dm = [] := extractGo_no_defaults s.fields [] hnodef hex
  have hho : ho dm = [] := by
    rw [hdm]
    exact (horder []).eq_nil
  have hdf : d.defaultFields = [] := by
    rw [hdd]
    show (ho dm).map Prod.fst = []
    rw [hho]
    rfl
  have hdv : d.defaultValues = [] := by
    rw [hdd]
    show (ho dm).map Prod.snd = []
    rw [hho]
    rfl
  have hfieldsd : d.fields
      = (s.fields.filter fun f => !isArrayTy f.ty).filterMap fun f => f.ident := by
    rw [hdd]
    show List.filter _ _ = _
    apply List.filter_eq_self.mpr
    intro i _
    rw [hho]
    rfl
  have harrf : d.arrayFields
      = (s.fields.filter fun f => isArrayTy f.ty).filterMap fun f => f.ident := by
    rw [hdd]
  have hdty : ∀ fld ∈ s.fields, ∀ nm : Ident, fld.ident = some nm →
      destTyOf d.rawInto nm = fld.ty := by
    intro fld hm nm hi
    show destTyL d.rawInto.fields nm = fld.ty
    rw [destTy_emitted hd nm, destTyL_eq_of_mem hnd hm hi]
  have hFnil : evalLiteral env (destTyOf d.rawInto) (mkDefaultClauses d) = [] := by
    unfold mkDefaultClauses
    rw [hdf, hdv]
    rfl
  have hplain : ∀ fld ∈ s.fields, ∀ nm : Ident, fld.ident = some nm →
      isArrayTy fld.ty = false →
      alookup (d.fields.map fun i =>
          (i, evalClause env (destTyOf d.rawInto) (Clause.plainConv i))) nm
        = some (env.srcVal nm) := by
    intro fld hm nm hi hna
    have hmemf : nm ∈ d.fields := by
      rw [hfieldsd]
      exact List.mem_filterMap.mpr
        ⟨fld, List.mem_filter.mpr ⟨hm, by rw [hna]; rfl⟩, hi⟩
    rw [alookup_map_pair _ _ hmemf]
    simp only [evalClause]
    rw [htys fld hm nm hi, hdty fld hm nm hi, hconv]
  have hnewval : ∀ fld ∈ s.fields, ∀ nm : Ident, fld.ident = some nm →
      isArrayTy fld.ty = true →
      newVal env (destTyOf d.rawInto) nm = env.srcVal nm := by
    intro fld hm nm hi hia
    cases hty2 : fld.ty with
    | other n2 =>
      rw [hty2] at hia
      cases hia
    | array ee nn =>
      obtain ⟨vsg, hv1, hv2⟩ := hvals fld hm nm hi ee nn hty2
      unfold newVal
      rw [hdty fld hm nm hi, hty2, hv1, overwriteArr_zero_array _ hv2]
      rw [htys fld hm nm hi, hty2]
      have hmapid : vsg.map (env.conv (elemTy (.array ee nn)) (elemTy (.array ee nn)))
          = vsg := by
        rw [show elemTy (RustTy.array ee nn) = ee from rfl]
        calc vsg.map (env.conv ee ee) = vsg.map id :=
              List.map_congr_left (fun v _ => hconv ee v)
          _ = vsg := List.map_id vsg
      rw [hmapid]
  have hallok : d.arrayFields.all (lengthOkB env (destTyOf d.rawInto)) = true := by
    apply List.all_eq_true.mpr
    intro g hg
    rw [harrf] at hg
    obtain ⟨gfld, hgf, hgn⟩ := List.mem_filterMap.mp hg
    obtain ⟨hgl, hgp⟩ := List.mem_filter.mp hgf
    cases hty2 : gfld.ty with
    | other n2 =>
      rw [hty2] at hgp
      cases hgp
    | array ee nn =>
      obtain ⟨vsg, hv1, hv2⟩ := hvals gfld hgl g hgn ee nn hty2
      unfold lengthOkB
      rw [hdty gfld hgl g hgn, hty2, hv1, vlen_zeroVal_array]
      simp [vlen, hv2]
  by_cases harr : d.arrayFields = []
  · refine ⟨evalLiteral env (destTyOf d.rawInto) (directClauses d), ?_, ?_⟩
    · show runBody env (destTyOf d.rawInto) (implBodyOf d) = _
      unfold implBodyOf
      rw [if_pos harr]
      rfl
    · intro fld hm nm hi
      rw [direct_literal_shape]
      cases hia : isArrayTy fld.ty with
      | true =>
        have hin : nm ∈ d.arrayFields := mem_arrayFields hd hm hi hia
        rw [harr] at hin
        cases hin
      | false =>
        exact alookup_append_of_some _ (hplain fld hm nm hi hia)
  · refine ⟨(d.fields.map fun i =>
        (i, evalClause env (destTyOf d.rawInto) (Clause.plainConv i)))
      ++ ((d.arrayFields.map fun g => (g, newVal env (destTyOf d.rawInto) g))
        ++ evalLiteral env (destTyOf d.rawInto) (mkDefaultClauses d)), ?_, ?_⟩
    · show runBody env (destTyOf d.rawInto) (implBodyOf d) = _
      unfold implBodyOf
      rw [if_neg harr]
      rw [run_twoPhase env (destTyOf d.rawInto) d (arrayFields_nodup hd hnd)
        (arrayFields_disj_fields hd hnd), if_pos hallok]
    · intro fld hm nm hi
      cases hia : isArrayTy fld.ty with
      | false =>
        exact alookup_append_of_some _ (hplain fld hm nm hi hia)
      | true =>
        have hin : nm ∈ d.arrayFields := mem_arrayFields hd hm hi hia
        rw [alookup_append_of_none _ _
          (alookup_map_pair_none _ _ (arrayFields_disj_fields hd hnd nm hin))]
        rw [alookup_append_of_some _ (alookup_map_pair d.arrayFields _ hin)]
        rw [hnewval fld hm nm hi hia]

/-- C5 witness: the amended statement evaluated on exS5w (one plain
field id of identical type on both sides) under exEnv5. -/
theorem c5_round_trip_witness :
    runGenerated exEnv5 exOut5w = some exRes5w ∧
    alookup exRes5w ("id") = some (exEnv5.srcVal ("id")) := by
  have hmain := c5_round_trip idOrder [("M1")] exS5w exEnv5 exOut5w
    (fun l => List.Perm.refl l) (by decide)
    (by
      intro f hf
      have hf2 : f = { ident := some ("id"), ty := RustTy.other ("i32"), attrs := [] } := by
        have hfs : exS5w.fields
            = [{ ident := some ("id"), ty := RustTy.other ("i32"), attrs := [] }] := rfl
        rw [hfs] at hf
        exact List.mem_singleton.mp hf
      subst hf2
      rfl)
    (by
      intro fld hm nm hi
      have hf : fld = { ident := some ("id"), ty := RustTy.other ("i32"), attrs := [] } := by
        have hfs : exS5w.fields
            = [{ ident := some ("id"), ty := RustTy.other ("i32"), attrs := [] }] := rfl
        rw [hfs] at hm
        exact List.mem_singleton.mp hm
      subst hf
      have hnm : nm = ("id") := Option.some.inj hi.symm
      subst hnm
      rfl)
    (fun t v => rfl)
    (by
      intro fld hm nm hi ee nn hty2
      have hf : fld = { ident := some ("id"), ty := RustTy.other ("i32"), attrs := [] } := by
        have hfs : exS5w.fields
            = [{ ident := some ("id"), ty := RustTy.other ("i32"), attrs := [] }] := rfl
        rw [hfs] at hm
        exact List.mem_singleton.mp hm
      subst hf
      exact RustTy.noConfusion hty2)
    rfl
  obtain ⟨res, hrun, hall⟩ := hmain
  have hres : exRes5w = res := by
    show resOr (runGenerated exEnv5 exOut5w) = res
    rw [hrun]
    rfl
  refine ⟨?_, ?_⟩
  · rw [hres]
    exact hrun
  · rw [hres]
    exact hall { ident := some ("id"), ty := RustTy.other ("i32"), attrs := [] }
      (by decide) ("id") rfl

end StructAutoFrom
